import Mathlib

/-!
Verification of the YOLO-segmentation to PAGE-XML converter
(`converter.py`, class `YoloPageConverter`).

The development shallowly embeds the converter's single-document pipeline
`convert_page` and its helpers.  Polygon geometry is performed by the
external `shapely` library; it is modelled by the interface `Geom` below,
which packages the three operations the converter uses (`is_valid`,
`.area`, `.intersection(...).area`) together with the facts about real
polygon geometry that the proofs rely on (intersection area is
nonnegative and, for valid polygons, bounded by each operand's area).
A constructor exception inside the converter's `try` blocks is
indistinguishable, at the converter's outputs, from `is_valid` returning
`False`; both are therefore folded into `valid = false`.

Python `float` arithmetic is modelled by exact rationals, and `int`/`float`
literal parsing by exact decimal parsing (exponent / inf / nan forms are
not exercised by any claim).  Machine reals never overflow here; all
quantities are areas of pixel polygons.
-/

deriving instance DecidableEq for Except

/-- Interface of the shapely polygon operations used by `converter.py`,
together with the geometric facts the converter's correctness rests on. -/
structure Geom where
  valid : List (Int × Int) → Bool
  area : List (Int × Int) → Rat
  inter : List (Int × Int) → List (Int × Int) → Rat
  inter_nonneg : ∀ a b, 0 ≤ inter a b
  inter_le_left : ∀ a b, valid a = true → valid b = true → inter a b ≤ area a

/-- Embedding of `YoloPageConverter._calculate_polygon_overlap`: intersection
area of the two polygons, `0.0` when either polygon is invalid (or a geometry
exception occurs, folded into invalidity). -/
def calculatePolygonOverlap (G : Geom) (poly1Points poly2Points : List (Int × Int)) : Rat :=
  if G.valid poly1Points && G.valid poly2Points then G.inter poly1Points poly2Points else 0

/-- Embedding of `YoloPageConverter._calculate_containment_score`: fraction of
the child polygon's area covered by the parent; `0.0` when either polygon is
invalid or the child has non-positive area. -/
def calculateContainmentScore (G : Geom) (childPoints parentPoints : List (Int × Int)) : Rat :=
  if G.valid childPoints && G.valid parentPoints then
    if 0 < G.area childPoints then G.inter childPoints parentPoints / G.area childPoints
    else 0
  else 0

/-! ## Label-line parsing (`_parse_yolo_label` and the surrounding loop) -/

/-- Python `str.split()` with no separator: split on whitespace runs,
discarding empty pieces. -/
def splitWs (s : String) : List String :=
  (s.split Char.isWhitespace).filter (fun t => t ≠ "")

/-- Numeric value of a digit string (total; guarded by `allDigits` at uses). -/
def natFromDigits (cs : List Char) : Nat :=
  cs.foldl (fun a c => a * 10 + (c.toNat - 48)) 0

def allDigits (cs : List Char) : Bool :=
  cs.all Char.isDigit

/-- Value of the decimal literal `intPart.fracPart`. -/
def decimalValue (intPart fracPart : List Char) : Rat :=
  (natFromDigits intPart : Rat) + (natFromDigits fracPart : Rat) / ((10 : Rat) ^ fracPart.length)

/-- Split a character list at the first dot, keeping the remainder. -/
def splitDot : List Char → List Char × Option (List Char)
  | [] => ([], none)
  | c :: rest =>
    if c = '.' then ([], some rest)
    else
      let p := splitDot rest
      (c :: p.1, p.2)

/-- Python `float(...)` on the plain decimal forms occurring in label files:
optional sign, digits, optional fractional part.  Failure models the
`ValueError` the uncaught call raises. -/
def pyFloatCore (cs : List Char) : Option Rat :=
  match splitDot cs with
  | (ip, none) => if allDigits ip ∧ ip ≠ [] then some (natFromDigits ip : Rat) else none
  | (ip, some fp) =>
    if allDigits ip ∧ allDigits fp ∧ (ip ≠ [] ∨ fp ≠ []) then some (decimalValue ip fp)
    else none

def pyFloat (s : String) : Option Rat :=
  match s.toList with
  | [] => none
  | '-' :: rest => (pyFloatCore rest).map (fun q => -q)
  | '+' :: rest => pyFloatCore rest
  | cs => pyFloatCore cs

/-- The coordinate-pairing loop of `_parse_yolo_label`
(`for i in range(1, len(parts), 2): if i + 1 < len(parts): ...`):
consecutive token pairs are converted with `float`, a trailing odd token is
dropped, and a conversion failure raises (modelled by `Except.error`). -/
def pairUpPoints : List String → Except Unit (List (Rat × Rat))
  | x :: y :: rest =>
    match pyFloat x with
    | none => Except.error ()
    | some xv =>
      match pyFloat y with
      | none => Except.error ()
      | some yv =>
        match pairUpPoints rest with
        | Except.error e => Except.error e
        | Except.ok ps => Except.ok ((xv, yv) :: ps)
  | _ => Except.ok []

/-- Embedding of `YoloPageConverter._parse_yolo_label`.  A line with fewer
than 7 whitespace-separated tokens yields `(None, [])`; otherwise the class id
is converted with `int` and the remaining tokens are paired into points, and
a numeric conversion failure raises. -/
def parseYoloLabel (line : String) : Except Unit (Option Int × List (Rat × Rat)) :=
  let parts := splitWs line
  if parts.length < 7 then Except.ok (none, [])
  else
    match parts with
    | [] => Except.ok (none, [])
    | p0 :: rest =>
      match p0.toInt? with
      | none => Except.error ()
      | some cid =>
        match pairUpPoints rest with
        | Except.error e => Except.error e
        | Except.ok pts => Except.ok (some cid, pts)

/-- Python `int(...)` applied to a float: truncation toward zero. -/
def pyTrunc (q : Rat) : Int :=
  if 0 ≤ q then ⌊q⌋ else ⌈q⌉

/-- Embedding of `YoloPageConverter._denormalize_points`. -/
def denormalizePoints (points : List (Rat × Rat)) (imgWidth imgHeight : Nat) : List (Int × Int) :=
  points.map (fun p => (pyTrunc (p.1 * imgWidth), pyTrunc (p.2 * imgHeight)))

/-- Rendering of Python `f"{n:04d}"` for the nonnegative indices used here. -/
def pad4 (n : Nat) : String :=
  if n < 10 then "000" ++ toString n
  else if n < 100 then "00" ++ toString n
  else if n < 1000 then "0" ++ toString n
  else toString n

/-! ## Mapping configuration -/

/-- A per-class configuration entry: a JSON object with string values,
modelled as a key-value list with unique keys (Python `dict`). -/
abbrev Config := List (String × String)

/-- Python `config.get(k)`. -/
def cfgGet (c : Config) (k : String) : Option String :=
  (c.find? (fun kv => kv.1 == k)).map (fun kv => kv.2)

/-- Python `config.get(k, d)`. -/
def cfgGetD (c : Config) (k d : String) : String :=
  (cfgGet c k).getD d

/-- The class-id → configuration mapping table (string-keyed). -/
abbrev Mapping := List (String × Config)

/-- Python `self.mapping.get(class_id_str, {})`. -/
def mappingGet (m : Mapping) (k : String) : Config :=
  ((m.find? (fun kv => kv.1 == k)).map (fun kv => kv.2)).getD []

/-- The default mapping built by `create_default_mapping`. -/
def defaultMapping : Mapping :=
  [("0", [("element", "TextLine"), ("parent", "TextRegion"), ("parent_type", "paragraph")])]

/-! ## First pass: parse and categorize -/

/-- A parsed, denormalized label record: line index, class id, pixel points. -/
structure ParsedRec where
  idx : Nat
  classId : Int
  points : List (Int × Int)
deriving DecidableEq, Repr

/-- Entry of the converter's `text_lines` list. -/
structure LineRec where
  points : List (Int × Int)
  id : String
  config : Config
deriving DecidableEq, Repr

/-- Entry of `parent_text_regions` / `child_text_regions`. -/
structure RegionRec where
  points : List (Int × Int)
  id : String
  rtype : Option String
deriving DecidableEq, Repr

/-- A region added directly to the page in the first pass
(`TableRegion`, `ImageRegion`, `GraphicRegion`, `SeparatorRegion`,
`NoiseRegion`). -/
structure OpaqueRec where
  elementType : String
  id : String
  points : List (Int × Int)
deriving DecidableEq, Repr

/-- The categorized output of the first pass of `convert_page`. -/
structure Classified where
  parentTextRegions : List RegionRec
  childTextRegions : List RegionRec
  textLines : List LineRec
  opaques : List OpaqueRec
  warnings : List String
deriving DecidableEq, Repr

def Classified.empty : Classified := ⟨[], [], [], [], []⟩

def opaqueTypes : List String :=
  ["TableRegion", "ImageRegion", "GraphicRegion", "SeparatorRegion", "NoiseRegion"]

/-- Categorization of one parsed record, mirroring the body of the first-pass
loop of `convert_page` after denormalization: mapping lookup, warning-skip for
an absent or empty configuration, dispatch on the mapped element type.  A
mapped element type that is none of `TextLine`, `TextRegion`, or the five
opaque region types falls through every branch and is dropped silently. -/
def classifyStep (m : Mapping) (acc : Classified) (r : ParsedRec) : Classified :=
  let cfg := mappingGet m (toString r.classId)
  if cfg.isEmpty then
    { acc with warnings := acc.warnings ++
        ["No mapping found for class ID " ++ toString r.classId ++ ", skipping"] }
  else
    let elementType := cfgGetD cfg "element" "TextLine"
    if elementType = "TextLine" then
      { acc with textLines := acc.textLines ++ [⟨r.points, "l" ++ pad4 r.idx, cfg⟩] }
    else if elementType = "TextRegion" then
      if cfgGetD cfg "parent" "" = "TextRegion" then
        { acc with childTextRegions :=
            acc.childTextRegions ++ [⟨r.points, "r" ++ pad4 r.idx, cfgGet cfg "type"⟩] }
      else
        { acc with parentTextRegions :=
            acc.parentTextRegions ++ [⟨r.points, "r" ++ pad4 r.idx, cfgGet cfg "type"⟩] }
    else if elementType ∈ opaqueTypes then
      { acc with opaques := acc.opaques ++ [⟨elementType, "r" ++ pad4 r.idx, r.points⟩] }
    else acc

/-- Categorization of a list of already-parsed records. -/
def classifyRecords (m : Mapping) (recs : List ParsedRec) : Classified :=
  recs.foldl (classifyStep m) Classified.empty

/-! ## Tree model of the emitted PAGE-XML structure -/

/-- A `TextLine` element: id plus `Coords` points. -/
structure TextLineNode where
  id : String
  points : List (Int × Int)
deriving DecidableEq, Repr

/-- A `TextRegion` nested inside a top-level `TextRegion` (depth never
exceeds two because `_find_best_parent` only searches `parent_text_regions`). -/
structure SubRegionNode where
  id : String
  rtype : Option String
  points : List (Int × Int)
  lines : List TextLineNode
deriving DecidableEq, Repr

/-- A `TextRegion` owned directly by the `Page` element.  Its `subs` are the
nested `TextRegion` children appended in the third pass, its `lines` the
`TextLine` children appended in the fourth pass (in the emitted XML all
nested regions precede all lines because the passes are strictly ordered). -/
structure TopRegionNode where
  id : String
  rtype : Option String
  points : List (Int × Int)
  subs : List SubRegionNode
  lines : List TextLineNode
deriving DecidableEq, Repr

/-- Address of a live `TextRegion` element held in `all_text_regions`
(a Python reference into the element tree): a pass-2 top-level region, a
nested child region, or a page-level orphaned child region. -/
inductive RAddr where
  | topIdx (i : Nat)
  | subIdx (i j : Nat)
  | orphIdx (i : Nat)
deriving DecidableEq, Repr

/-- Entry of `all_text_regions`: the element reference plus its points.
Every entry is appended only after its element has been created, so the
source's `if region_info['element'] is None: continue` guard in the fourth
pass is dead code and the reference is always live here. -/
structure CandRegion where
  addr : RAddr
  points : List (Int × Int)
deriving DecidableEq, Repr

/-- The mutable element tree threaded through passes two to four. -/
structure BuildState where
  tops : List TopRegionNode
  orphanRegs : List TopRegionNode
  orphanLineRegs : List TopRegionNode
  orphanLineCount : Nat
  allTextRegions : List CandRegion
deriving DecidableEq, Repr

/-- In-place update of the i-th list element (the effect of mutating the
element a Python reference points to). -/
def listModify (f : α → α) : Nat → List α → List α
  | _, [] => []
  | 0, x :: xs => f x :: xs
  | n + 1, x :: xs => x :: listModify f n xs

/-- Second pass of `convert_page`: materialize every parent `TextRegion`
under the page and record it in `all_text_regions`. -/
def pass2 (parents : List RegionRec) : BuildState :=
  { tops := parents.map (fun p => ⟨p.id, p.rtype, p.points, [], []⟩)
    orphanRegs := []
    orphanLineRegs := []
    orphanLineCount := 0
    allTextRegions := parents.enum.map (fun ip => ⟨RAddr.topIdx ip.1, ip.2.points⟩) }

/-- The candidate loop of `YoloPageConverter._find_best_parent`, rendered as
recursion over the candidate list with the running best score, best element
(by index) and running index. -/
def findBestLoop (G : Geom) (childPoints : List (Int × Int)) :
    List RegionRec → Rat → Option Nat → Nat → Rat × Option Nat
  | [], best, bi, _ => (best, bi)
  | p :: ps, best, bi, n =>
    let score := calculateContainmentScore G childPoints p.points
    if best < score then findBestLoop G childPoints ps score (some n) (n + 1)
    else findBestLoop G childPoints ps best bi (n + 1)

/-- Embedding of `YoloPageConverter._find_best_parent` (default threshold
`0.5`).  The source returns the chosen parent element; element identity is
modelled by the index into `potential_parents`. -/
def findBestParent (G : Geom) (childPoints : List (Int × Int))
    (potentialParents : List RegionRec) (threshold : Rat := 1/2) : Option Nat :=
  let r := findBestLoop G childPoints potentialParents threshold none 0
  match r.2 with
  | some i => if threshold < r.1 then some i else none
  | none => none

/-- Third-pass body of `convert_page`: nest the child `TextRegion` under the
best parent when one is found, else add it at page level; either way append
it to `all_text_regions`. -/
def placeChild (G : Geom) (parents : List RegionRec) (st : BuildState) (c : RegionRec) :
    BuildState :=
  match findBestParent G c.points parents with
  | some i =>
    let j := match st.tops.get? i with
      | some t => t.subs.length
      | none => 0
    { st with
      tops := listModify (fun t => { t with subs := t.subs ++ [⟨c.id, c.rtype, c.points, []⟩] })
        i st.tops
      allTextRegions := st.allTextRegions ++ [⟨RAddr.subIdx i j, c.points⟩] }
  | none =>
    { st with
      orphanRegs := st.orphanRegs ++ [⟨c.id, c.rtype, c.points, [], []⟩]
      allTextRegions := st.allTextRegions ++ [⟨RAddr.orphIdx st.orphanRegs.length, c.points⟩] }

/-- Third pass of `convert_page` over all child `TextRegion` records. -/
def pass3 (G : Geom) (parents : List RegionRec) (st : BuildState)
    (childs : List RegionRec) : BuildState :=
  childs.foldl (placeChild G parents) st

/-- The line's own area as computed in the fourth pass: polygon area when the
polygon is valid, `0` when invalid or when construction raises. -/
def lineAreaOf (G : Geom) (pts : List (Int × Int)) : Rat :=
  if G.valid pts then G.area pts else 0

/-- The candidate region's area in the fourth pass: `float('inf')` (here
`none`) when the polygon is invalid or construction raises. -/
def regionAreaOf (G : Geom) (pts : List (Int × Int)) : Option Rat :=
  if G.valid pts then some (G.area pts) else none

/-- Strict order on areas where `none` stands for `float('inf')`. -/
def ltInf : Option Rat → Option Rat → Bool
  | none, _ => false
  | some _, none => true
  | some x, some y => decide (x < y)

/-- The candidate loop of the fourth pass of `convert_page`, rendered as
recursion with the running best region (by address) and best area. -/
def assignLoop (G : Geom) (linePoints : List (Int × Int)) (lineArea : Rat) :
    List CandRegion → Option RAddr → Option Rat → Option RAddr
  | [], best, _ => best
  | c :: cs, best, bestArea =>
    let overlap := calculatePolygonOverlap G linePoints c.points
    if 0 < lineArea ∧ lineArea * (1/10) < overlap then
      let ra := regionAreaOf G c.points
      if ltInf ra bestArea then assignLoop G linePoints lineArea cs (some c.addr) ra
      else assignLoop G linePoints lineArea cs best bestArea
    else assignLoop G linePoints lineArea cs best bestArea

/-- Candidate selection for one `TextLine` in the fourth pass: the smallest
region whose overlap with the line exceeds a tenth of the line's own area. -/
def assignLeaf (G : Geom) (cands : List CandRegion) (linePoints : List (Int × Int)) :
    Option RAddr :=
  assignLoop G linePoints (lineAreaOf G linePoints) cands none none

/-- Append a `TextLine` to the region element a reference points to. -/
def appendLineAt (ln : TextLineNode) (st : BuildState) : RAddr → BuildState
  | RAddr.topIdx i =>
    { st with tops := listModify (fun t => { t with lines := t.lines ++ [ln] }) i st.tops }
  | RAddr.subIdx i j =>
    let g := fun (t : TopRegionNode) =>
      { t with subs := listModify (fun s => { s with lines := s.lines ++ [ln] }) j t.subs }
    { st with tops := listModify g i st.tops }
  | RAddr.orphIdx i =>
    { st with orphanRegs := listModify (fun t => { t with lines := t.lines ++ [ln] }) i st.orphanRegs }

/-- Fourth-pass body of `convert_page`: attach the line to the chosen region,
or manufacture a fresh page-level `TextRegion` (id `r_orphanNNNN`, type from
the line's `parent_type`, default `paragraph`) containing just this line.
The manufactured region is not appended to `all_text_regions`. -/
def pass4Step (G : Geom) (st : BuildState) (l : LineRec) : BuildState :=
  match assignLeaf G st.allTextRegions l.points with
  | some a => appendLineAt ⟨l.id, l.points⟩ st a
  | none =>
    { st with
      orphanLineRegs := st.orphanLineRegs ++
        [⟨"r_orphan" ++ pad4 st.orphanLineCount,
          some (cfgGetD l.config "parent_type" "paragraph"), l.points, [],
          [⟨l.id, l.points⟩]⟩]
      orphanLineCount := st.orphanLineCount + 1 }

/-- Fourth pass of `convert_page` over all `TextLine` records. -/
def pass4 (G : Geom) (st : BuildState) (ls : List LineRec) : BuildState :=
  ls.foldl (pass4Step G) st

/-- Hierarchy building from categorized records: passes two to four. -/
def buildFromClassified (G : Geom) (cl : Classified) : BuildState :=
  pass4 G (pass3 G cl.parentTextRegions (pass2 cl.parentTextRegions) cl.childTextRegions)
    cl.textLines

/-! ## Full single-document conversion -/

/-- The `Page` element: image metadata, the opaque regions added in the first
pass (which precede every `TextRegion` in document order), and the top-level
`TextRegion` elements in document order: pass-2 parents, then page-level
orphaned child regions, then manufactured orphan-line containers. -/
structure PageNode where
  imageFilename : String
  imageWidth : Nat
  imageHeight : Nat
  opaqueRegions : List OpaqueRec
  textRegions : List TopRegionNode
deriving DecidableEq, Repr

/-- The `PcGts` document: metadata timestamps plus the page tree. -/
structure PcGts where
  created : String
  lastChange : String
  page : PageNode
deriving DecidableEq, Repr

/-- One iteration of the first-pass loop of `convert_page`: skip blank lines,
parse, skip lines yielding no points, denormalize, categorize. -/
def firstPassStep (m : Mapping) (imgWidth imgHeight : Nat) (acc : Classified)
    (il : Nat × String) : Except Unit Classified :=
  if splitWs il.2 = [] then Except.ok acc
  else
    match parseYoloLabel il.2 with
    | Except.error e => Except.error e
    | Except.ok (cid?, normPoints) =>
      if normPoints = [] then Except.ok acc
      else
        match cid? with
        | none => Except.ok acc
        | some cid =>
          Except.ok (classifyStep m acc ⟨il.1, cid, denormalizePoints normPoints imgWidth imgHeight⟩)

/-- First pass of `convert_page` over the enumerated label lines. -/
def firstPass (m : Mapping) (imgWidth imgHeight : Nat) (lines : List String) :
    Except Unit Classified :=
  lines.enum.foldlM (firstPassStep m imgWidth imgHeight) Classified.empty

/-- Embedding of `YoloPageConverter.convert_page` for one document whose
label lines and image dimensions are given (file I/O and XML serialization
are boundary concerns; `now` is the `datetime.now()` timestamp). -/
def convertPage (G : Geom) (m : Mapping) (now imageFilename : String)
    (imgWidth imgHeight : Nat) (lines : List String) : Except Unit PcGts :=
  match firstPass m imgWidth imgHeight lines with
  | Except.error e => Except.error e
  | Except.ok cl =>
    let st := buildFromClassified G cl
    Except.ok ⟨now, now,
      ⟨imageFilename, imgWidth, imgHeight, cl.opaques,
        st.tops ++ st.orphanRegs ++ st.orphanLineRegs⟩⟩

/-! ## A concrete geometry: axis-aligned bounding boxes

Used to instantiate `Geom` at witnesses.  It genuinely satisfies the
interface: intersection area of two boxes is nonnegative and at most the
area of either box.  On the axis-aligned rectangles appearing in the
specification's scenarios it agrees with exact polygon geometry. -/

def xsOf (ps : List (Int × Int)) : List Int := ps.map Prod.fst

def ysOf (ps : List (Int × Int)) : List Int := ps.map Prod.snd

def listLo : List Int → Int
  | [] => 0
  | x :: xs => xs.foldl min x

def listHi : List Int → Int
  | [] => 0
  | x :: xs => xs.foldl max x

def boxArea (ps : List (Int × Int)) : Rat :=
  (((listHi (xsOf ps) - listLo (xsOf ps)) * (listHi (ysOf ps) - listLo (ysOf ps)) : Int) : Rat)

def boxInterW (a b : List (Int × Int)) : Int :=
  min (listHi (xsOf a)) (listHi (xsOf b)) - max (listLo (xsOf a)) (listLo (xsOf b))

def boxInterH (a b : List (Int × Int)) : Int :=
  min (listHi (ysOf a)) (listHi (ysOf b)) - max (listLo (ysOf a)) (listLo (ysOf b))

def boxInter (a b : List (Int × Int)) : Rat :=
  if a = [] ∨ b = [] then 0
  else if 0 < boxInterW a b ∧ 0 < boxInterH a b then
    ((boxInterW a b * boxInterH a b : Int) : Rat)
  else 0

def boxValid (ps : List (Int × Int)) : Bool :=
  decide (3 ≤ ps.length) && decide (0 < boxArea ps)

theorem foldl_min_le_init {α : Type} [LinearOrder α] (l : List α) :
    ∀ a : α, l.foldl min a ≤ a := by
  induction l with
  | nil => intro a; simp
  | cons x xs ih =>
    intro a
    calc (x :: xs).foldl min a = xs.foldl min (min a x) := by simp [List.foldl_cons]
    _ ≤ min a x := ih (min a x)
    _ ≤ a := min_le_left a x

theorem init_le_foldl_max {α : Type} [LinearOrder α] (l : List α) :
    ∀ a : α, a ≤ l.foldl max a := by
  induction l with
  | nil => intro a; simp
  | cons x xs ih =>
    intro a
    calc a ≤ max a x := le_max_left a x
    _ ≤ xs.foldl max (max a x) := ih (max a x)
    _ = (x :: xs).foldl max a := by simp [List.foldl_cons]

theorem listLo_le_listHi {l : List Int} (h : l ≠ []) : listLo l ≤ listHi l := by
  match l, h with
  | x :: xs, _ =>
    calc listLo (x :: xs) = xs.foldl min x := rfl
    _ ≤ x := foldl_min_le_init xs x
    _ ≤ xs.foldl max x := init_le_foldl_max xs x
    _ = listHi (x :: xs) := rfl

theorem boxInter_nonneg (a b : List (Int × Int)) : 0 ≤ boxInter a b := by
  unfold boxInter
  split
  · exact le_refl 0
  · split
    · rename_i hne hwh
      have hw := hwh.1
      have hh := hwh.2
      have : (0 : Int) ≤ boxInterW a b * boxInterH a b :=
        mul_nonneg (le_of_lt hw) (le_of_lt hh)
      exact_mod_cast this
    · exact le_refl 0

theorem boxValid_area_pos {ps : List (Int × Int)} (h : boxValid ps = true) : 0 < boxArea ps := by
  have := (Bool.and_eq_true _ _).mp h
  exact of_decide_eq_true this.2

theorem boxValid_ne_nil {ps : List (Int × Int)} (h : boxValid ps = true) : ps ≠ [] := by
  have := (Bool.and_eq_true _ _).mp h
  have hlen : 3 ≤ ps.length := of_decide_eq_true this.1
  intro hnil
  rw [hnil] at hlen
  simp at hlen

theorem boxInter_le_left (a b : List (Int × Int))
    (ha : boxValid a = true) (_hb : boxValid b = true) : boxInter a b ≤ boxArea a := by
  unfold boxInter
  split
  · exact le_of_lt (boxValid_area_pos ha)
  · split
    · rename_i hne hwh
      have hxa : xsOf a ≠ [] := by
        intro hx
        exact boxValid_ne_nil ha (by simpa [xsOf] using hx)
      have hya : ysOf a ≠ [] := by
        intro hy
        exact boxValid_ne_nil ha (by simpa [ysOf] using hy)
      have hw : boxInterW a b ≤ listHi (xsOf a) - listLo (xsOf a) := by
        unfold boxInterW
        exact sub_le_sub (min_le_left _ _) (le_max_left _ _)
      have hh : boxInterH a b ≤ listHi (ysOf a) - listLo (ysOf a) := by
        unfold boxInterH
        exact sub_le_sub (min_le_left _ _) (le_max_left _ _)
      have h0w : (0 : Int) ≤ boxInterH a b := le_of_lt hwh.2
      have h0W : (0 : Int) ≤ listHi (xsOf a) - listLo (xsOf a) :=
        sub_nonneg.mpr (listLo_le_listHi hxa)
      have hint : boxInterW a b * boxInterH a b ≤
          (listHi (xsOf a) - listLo (xsOf a)) * (listHi (ysOf a) - listLo (ysOf a)) :=
        mul_le_mul hw hh h0w h0W
      unfold boxArea
      exact_mod_cast hint
    · exact le_of_lt (boxValid_area_pos ha)

/-- The bounding-box geometry packaged as a `Geom`. -/
def boxGeom : Geom :=
  { valid := boxValid
    area := boxArea
    inter := boxInter
    inter_nonneg := boxInter_nonneg
    inter_le_left := boxInter_le_left }

/-! ## Basic facts about `listModify` -/

theorem listModify_length {α : Type} (f : α → α) :
    ∀ (i : Nat) (l : List α), (listModify f i l).length = l.length := by
  intro i l
  induction l generalizing i with
  | nil => cases i <;> rfl
  | cons x xs ih =>
    cases i with
    | zero => rfl
    | succ n => simp [listModify, ih n]

theorem listModify_get? {α : Type} (f : α → α) :
    ∀ (i : Nat) (l : List α) (j : Nat),
      (listModify f i l).get? j = if i = j then (l.get? j).map f else l.get? j := by
  intro i l
  induction l generalizing i with
  | nil => intro j; cases i <;> simp [listModify]
  | cons x xs ih =>
    intro j
    cases i with
    | zero =>
      cases j with
      | zero => simp [listModify]
      | succ k => simp [listModify]
    | succ n =>
      cases j with
      | zero => simp [listModify]
      | succ k =>
        simp only [listModify, List.get?_cons_succ]
        rw [ih n k]
        by_cases h : n = k
        · simp [h]
        · simp [h, fun hc => h (Nat.succ_injective hc)]

theorem sum_map_listModify {α : Type} (g : α → Nat) (f : α → α) :
    ∀ (i : Nat) (l : List α) (x : α), l.get? i = some x →
      ((listModify f i l).map g).sum + g x = (l.map g).sum + g (f x) := by
  intro i l
  induction l generalizing i with
  | nil => intro x hx; simp at hx
  | cons y ys ih =>
    intro x hx
    cases i with
    | zero =>
      simp only [List.get?_cons_zero, Option.some.injEq] at hx
      subst hx
      simp [listModify]
      omega
    | succ n =>
      simp only [List.get?_cons_succ] at hx
      have := ih n x hx
      simp only [listModify, List.map_cons, List.sum_cons]
      omega

/-! ## The first pass is an append homomorphism -/

/-- Componentwise concatenation of categorization results. -/
def Classified.append (a b : Classified) : Classified :=
  ⟨a.parentTextRegions ++ b.parentTextRegions,
   a.childTextRegions ++ b.childTextRegions,
   a.textLines ++ b.textLines,
   a.opaques ++ b.opaques,
   a.warnings ++ b.warnings⟩

/-- The contribution of a single record to the categorization. -/
def contribOf (m : Mapping) (r : ParsedRec) : Classified :=
  classifyStep m Classified.empty r

theorem Classified.append_empty (a : Classified) : a.append Classified.empty = a := by
  simp [Classified.append, Classified.empty]

theorem Classified.empty_append (a : Classified) : Classified.empty.append a = a := by
  simp [Classified.append, Classified.empty]

theorem Classified.append_assoc (a b c : Classified) :
    (a.append b).append c = a.append (b.append c) := by
  simp [Classified.append, List.append_assoc]

theorem classifyStep_append (m : Mapping) (acc : Classified) (r : ParsedRec) :
    classifyStep m acc r = acc.append (contribOf m r) := by
  unfold contribOf classifyStep
  dsimp only
  split_ifs <;> simp [Classified.append, Classified.empty]

theorem classify_foldl_append (m : Mapping) :
    ∀ (recs : List ParsedRec) (acc : Classified),
      recs.foldl (classifyStep m) acc = acc.append (classifyRecords m recs) := by
  intro recs
  induction recs with
  | nil =>
    intro acc
    simp [classifyRecords, Classified.append_empty]
  | cons r rs ih =>
    intro acc
    have h1 : classifyRecords m (r :: rs) =
        (contribOf m r).append (classifyRecords m rs) := by
      unfold classifyRecords
      simp only [List.foldl_cons]
      rw [classifyStep_append, Classified.empty_append, ih]
      rfl
    simp only [List.foldl_cons]
    rw [classifyStep_append, ih, h1, Classified.append_assoc]

theorem classifyRecords_append (m : Mapping) (l1 l2 : List ParsedRec) :
    classifyRecords m (l1 ++ l2) =
      (classifyRecords m l1).append (classifyRecords m l2) := by
  unfold classifyRecords
  rw [List.foldl_append, classify_foldl_append]
  rfl

/-! ## Claim theorems -/

/-- Claim C6: the geometric scoring functions are total (they are Lean
functions); both return `0.0` whenever either polygon is invalid, both return
`0.0` whenever the child polygon has zero area, and the containment score
always lies in the closed interval `[0, 1]`. -/
theorem claim6_geometry_total (G : Geom) (c p : List (Int × Int)) :
    (0 ≤ calculateContainmentScore G c p ∧ calculateContainmentScore G c p ≤ 1)
    ∧ ((G.valid c = false ∨ G.valid p = false) →
        calculatePolygonOverlap G c p = 0 ∧ calculateContainmentScore G c p = 0)
    ∧ (G.area c = 0 →
        calculatePolygonOverlap G c p = 0 ∧ calculateContainmentScore G c p = 0) := by
  unfold calculatePolygonOverlap calculateContainmentScore
  by_cases hv : G.valid c && G.valid p
  · have hc : G.valid c = true := (Bool.and_eq_true _ _).mp hv |>.1
    have hp : G.valid p = true := (Bool.and_eq_true _ _).mp hv |>.2
    rw [hv]
    simp only [if_true]
    refine ⟨?_, ?_, ?_⟩
    · by_cases ha : 0 < G.area c
      · rw [if_pos ha]
        constructor
        · exact div_nonneg (G.inter_nonneg c p) (le_of_lt ha)
        · rw [div_le_one ha]
          exact G.inter_le_left c p hc hp
      · rw [if_neg ha]
        exact ⟨le_refl 0, zero_le_one⟩
    · intro h
      rcases h with h | h
      · rw [hc] at h; cases h
      · rw [hp] at h; cases h
    · intro ha
      have hle : G.inter c p ≤ 0 := by
        have := G.inter_le_left c p hc hp
        rwa [ha] at this
      have heq : G.inter c p = 0 := le_antisymm hle (G.inter_nonneg c p)
      rw [ha]
      simp [heq]
  · rw [Bool.not_eq_true] at hv
    rw [hv]
    simp

/-- Witness for C6 at the bounding-box geometry: a concrete score is within
bounds, and a degenerate (invalid) child polygon yields overlap `0`. -/
theorem claim6_witness :
    (0 ≤ calculateContainmentScore boxGeom [(0, 0), (2, 0), (2, 2), (0, 2)]
        [(0, 0), (4, 0), (4, 4), (0, 4)]
      ∧ calculateContainmentScore boxGeom [(0, 0), (2, 0), (2, 2), (0, 2)]
        [(0, 0), (4, 0), (4, 4), (0, 4)] ≤ 1)
    ∧ calculatePolygonOverlap boxGeom [(0, 0)] [(0, 0), (4, 0), (4, 4), (0, 4)] = 0 :=
  ⟨(claim6_geometry_total boxGeom [(0, 0), (2, 0), (2, 2), (0, 2)]
      [(0, 0), (4, 0), (4, 4), (0, 4)]).1,
   ((claim6_geometry_total boxGeom [(0, 0)] [(0, 0), (4, 0), (4, 4), (0, 4)]).2.1
      (Or.inl (by with_unfolding_all decide))).1⟩

/-- Claim C9: single-document conversion is a pure function of its inputs —
re-running it on identical input yields an identical result, and the page
tree (nodes, types, coordinates, nesting, order) does not depend on the
generated timestamp. -/
theorem claim9_deterministic_conversion (G : Geom) (m : Mapping)
    (now1 now2 fn : String) (w h : Nat) (lines : List String) :
    convertPage G m now1 fn w h lines = convertPage G m now1 fn w h lines
    ∧ (convertPage G m now1 fn w h lines).map PcGts.page
        = (convertPage G m now2 fn w h lines).map PcGts.page := by
  refine ⟨rfl, ?_⟩
  unfold convertPage
  cases firstPass m w h lines <;> simp [Except.map]

/-- Claim C5 (amended): a label line yielding fewer than 7 whitespace-separated
tokens (fewer than 3 point pairs) is skipped without error and the
single-document conversion continues (the per-line processing step leaves the
state unchanged); however, a line with at least 7 tokens whose class-id token
is not an integer literal raises, so malformed token content — unlike a short
line — aborts the conversion rather than being skipped. -/
theorem claim5_malformed_line_handling (line : String) :
    ((splitWs line).length < 7 →
      parseYoloLabel line = Except.ok (none, [])
      ∧ ∀ (m : Mapping) (w hgt : Nat) (acc : Classified) (idx : Nat),
          firstPassStep m w hgt acc (idx, line) = Except.ok acc)
    ∧ (7 ≤ (splitWs line).length → ((splitWs line).headD "").toInt? = none →
      parseYoloLabel line = Except.error ()) := by
  constructor
  · intro h
    have hparse : parseYoloLabel line = Except.ok (none, []) := by
      unfold parseYoloLabel
      rw [if_pos h]
    refine ⟨hparse, ?_⟩
    intro m w hgt acc idx
    unfold firstPassStep
    by_cases he : splitWs line = []
    · simp [he]
    · simp only [he, if_neg, hparse]
      simp
  · intro h7 hint
    unfold parseYoloLabel
    rw [if_neg (not_lt.mpr h7)]
    cases hp : splitWs line with
    | nil => rw [hp] at h7; simp at h7
    | cons p0 rest =>
      rw [hp] at hint
      simp only [List.headD_cons] at hint
      simp [hint]

/-- Counterexample to C5 as stated: a line whose class-id token is malformed
(`"x"`) raises past the parsing step and aborts the whole single-document
conversion, instead of being recoverably skipped. -/
theorem claim5_counterexample :
    parseYoloLabel "x 0 0 1 0 1 1" = Except.error ()
    ∧ convertPage boxGeom defaultMapping "T" "img.png" 100 100 ["x 0 0 1 0 1 1"]
        = Except.error () := by
  constructor
  · with_unfolding_all decide
  · with_unfolding_all decide

/-- Witness for C5: a 3-token line is skipped with the state unchanged, and a
7-token line with a non-numeric class id raises. -/
theorem claim5_witness :
    (parseYoloLabel "0 0.1 0.2" = Except.ok (none, [])
      ∧ firstPassStep defaultMapping 100 100 Classified.empty (0, "0 0.1 0.2")
          = Except.ok Classified.empty)
    ∧ parseYoloLabel "y 0 0 1 0 1 1" = Except.error () :=
  ⟨⟨((claim5_malformed_line_handling "0 0.1 0.2").1 (by with_unfolding_all decide)).1,
    ((claim5_malformed_line_handling "0 0.1 0.2").1 (by with_unfolding_all decide)).2
      defaultMapping 100 100 Classified.empty 0⟩,
   (claim5_malformed_line_handling "y 0 0 1 0 1 1").2 (by with_unfolding_all decide)
     (by with_unfolding_all decide)⟩

/-- Claim C10: a record whose class id is mapped to a non-empty configuration
that lacks the `element` key is classified as a `TextLine` leaf by default —
it is not dropped, not an error, and not a region — and the fourth pass
treats it exactly as it would treat the same record with an explicit
`element: TextLine` entry. -/
theorem claim10_default_textline (m : Mapping) (acc : Classified) (r : ParsedRec)
    (cfg : Config)
    (h1 : mappingGet m (toString r.classId) = cfg)
    (h2 : cfg ≠ [])
    (h3 : cfgGet cfg "element" = none) :
    classifyStep m acc r =
      { acc with textLines := acc.textLines ++ [⟨r.points, "l" ++ pad4 r.idx, cfg⟩] }
    ∧ ∀ (G : Geom) (st : BuildState) (lid : String),
        pass4Step G st ⟨r.points, lid, cfg⟩ =
          pass4Step G st ⟨r.points, lid, ("element", "TextLine") :: cfg⟩ := by
  constructor
  · have hde : cfgGetD cfg "element" "TextLine" = "TextLine" := by
      unfold cfgGetD
      rw [h3]
      rfl
    have hne : cfg.isEmpty = false := by
      cases cfg with
      | nil => exact absurd rfl h2
      | cons a l => rfl
    unfold classifyStep
    rw [h1]
    dsimp only
    rw [hne]
    simp [hde]
  · intro G st lid
    unfold pass4Step
    cases assignLeaf G st.allTextRegions r.points with
    | some a => rfl
    | none =>
      have hpt : cfgGetD (("element", "TextLine") :: cfg) "parent_type" "paragraph"
          = cfgGetD cfg "parent_type" "paragraph" := by
        unfold cfgGetD cfgGet
        simp [List.find?]
      simp [hpt]

/-- Witness for C10: a concrete record mapped to the one-entry configuration
`{"parent_type": "heading"}` is classified as a `TextLine` leaf. -/
theorem claim10_witness :
    classifyStep [("3", [("parent_type", "heading")])] Classified.empty ⟨0, 3, [(0, 0)]⟩ =
      { Classified.empty with
        textLines := [⟨[(0, 0)], "l" ++ pad4 0, [("parent_type", "heading")]⟩] } :=
  by
  have h := (claim10_default_textline [("3", [("parent_type", "heading")])]
    Classified.empty ⟨0, 3, [(0, 0)]⟩ [("parent_type", "heading")]
    (by with_unfolding_all decide) (by with_unfolding_all decide)
    (by with_unfolding_all decide)).1
  simpa [Classified.empty] using h

/-- Claim C7: a parsed record whose class id is absent from the mapping table
is dropped with a warning and excluded from all further processing — the
categorized lists, the built hierarchy, and hence the emitted tree are
exactly those of the same input without the record — and the drop does not
abort the conversion (categorization is total). -/
theorem claim7_unmapped_class_dropped (G : Geom) (m : Mapping) (r : ParsedRec)
    (l1 l2 : List ParsedRec)
    (h : m.find? (fun kv => kv.1 == toString r.classId) = none) :
    (∀ acc, classifyStep m acc r =
      { acc with warnings := acc.warnings ++
          ["No mapping found for class ID " ++ toString r.classId ++ ", skipping"] })
    ∧ (classifyRecords m (l1 ++ r :: l2)).parentTextRegions
        = (classifyRecords m (l1 ++ l2)).parentTextRegions
    ∧ (classifyRecords m (l1 ++ r :: l2)).childTextRegions
        = (classifyRecords m (l1 ++ l2)).childTextRegions
    ∧ (classifyRecords m (l1 ++ r :: l2)).textLines
        = (classifyRecords m (l1 ++ l2)).textLines
    ∧ (classifyRecords m (l1 ++ r :: l2)).opaques
        = (classifyRecords m (l1 ++ l2)).opaques
    ∧ buildFromClassified G (classifyRecords m (l1 ++ r :: l2))
        = buildFromClassified G (classifyRecords m (l1 ++ l2))
    ∧ (classifyRecords m (l1 ++ r :: l2)).warnings
        = (classifyRecords m l1).warnings
          ++ ["No mapping found for class ID " ++ toString r.classId ++ ", skipping"]
          ++ (classifyRecords m l2).warnings := by
  have hmg : mappingGet m (toString r.classId) = [] := by
    unfold mappingGet
    rw [h]
    rfl
  have hstep : ∀ acc : Classified, classifyStep m acc r =
      { acc with warnings := acc.warnings ++
          ["No mapping found for class ID " ++ toString r.classId ++ ", skipping"] } := by
    intro acc
    unfold classifyStep
    rw [hmg]
    rfl
  have hcontrib : contribOf m r =
      ⟨[], [], [], [],
        ["No mapping found for class ID " ++ toString r.classId ++ ", skipping"]⟩ := by
    unfold contribOf
    rw [hstep Classified.empty]
    rfl
  have hsplit : classifyRecords m (l1 ++ r :: l2) =
      (classifyRecords m l1).append ((contribOf m r).append (classifyRecords m l2)) := by
    rw [classifyRecords_append]
    congr 1
    unfold classifyRecords
    simp only [List.foldl_cons]
    rw [classify_foldl_append]
    rfl
  have hsplit2 : classifyRecords m (l1 ++ l2) =
      (classifyRecords m l1).append (classifyRecords m l2) :=
    classifyRecords_append m l1 l2
  have hp : (classifyRecords m (l1 ++ r :: l2)).parentTextRegions
      = (classifyRecords m (l1 ++ l2)).parentTextRegions := by
    rw [hsplit, hsplit2, hcontrib]
    simp [Classified.append]
  have hc : (classifyRecords m (l1 ++ r :: l2)).childTextRegions
      = (classifyRecords m (l1 ++ l2)).childTextRegions := by
    rw [hsplit, hsplit2, hcontrib]
    simp [Classified.append]
  have hl : (classifyRecords m (l1 ++ r :: l2)).textLines
      = (classifyRecords m (l1 ++ l2)).textLines := by
    rw [hsplit, hsplit2, hcontrib]
    simp [Classified.append]
  have ho : (classifyRecords m (l1 ++ r :: l2)).opaques
      = (classifyRecords m (l1 ++ l2)).opaques := by
    rw [hsplit, hsplit2, hcontrib]
    simp [Classified.append]
  refine ⟨hstep, hp, hc, hl, ho, ?_, ?_⟩
  · unfold buildFromClassified
    rw [hp, hc, hl]
  · rw [hsplit, hcontrib]
    simp [Classified.append]

/-- Witness for C7: with the default mapping, a record of class `7` is dropped
with a warning while the tree built from the remaining records is unchanged. -/
theorem claim7_witness :
    (classifyRecords defaultMapping
        [⟨0, 0, [(0, 0), (9, 0), (9, 9), (0, 9)]⟩, ⟨1, 7, [(1, 1), (2, 2), (3, 1)]⟩]).textLines
      = (classifyRecords defaultMapping [⟨0, 0, [(0, 0), (9, 0), (9, 9), (0, 9)]⟩]).textLines
    ∧ (classifyRecords defaultMapping
        [⟨0, 0, [(0, 0), (9, 0), (9, 9), (0, 9)]⟩, ⟨1, 7, [(1, 1), (2, 2), (3, 1)]⟩]).warnings
      = ["No mapping found for class ID 7, skipping"] := by
  have h := claim7_unmapped_class_dropped boxGeom defaultMapping
    ⟨1, 7, [(1, 1), (2, 2), (3, 1)]⟩ [⟨0, 0, [(0, 0), (9, 0), (9, 9), (0, 9)]⟩] []
    (by with_unfolding_all decide)
  refine ⟨?_, ?_⟩
  · exact h.2.2.2.1
  · have h2 := h.2.2.2.2.2.2
    simp only [List.singleton_append] at h2
    rw [h2]
    with_unfolding_all decide

/-! ## Specification functions for the selection loops -/

/-- Containment scores of a child polygon against each candidate parent. -/
def scoresOf (G : Geom) (childPoints : List (Int × Int)) (ps : List RegionRec) : List Rat :=
  ps.map (fun p => calculateContainmentScore G childPoints p.points)

/-- Running maximum of a list of scores, seeded with the threshold. -/
def runMax (t : Rat) (l : List Rat) : Rat :=
  l.foldl max t

/-- Index of the first occurrence of a value in a list of scores. -/
def firstIdxEq (v : Rat) : List Rat → Option Nat
  | [] => none
  | s :: ss => if s = v then some 0 else (firstIdxEq v ss).map (fun k => k + 1)

/-- Specification of `_find_best_parent`: the index of the first score equal
to the maximum, provided the maximum strictly exceeds the threshold; `none`
otherwise (in particular when the maximum equals the threshold exactly). -/
def firstStrictArgmax (t : Rat) (l : List Rat) : Option Nat :=
  if t < runMax t l then firstIdxEq (runMax t l) l else none

theorem runMax_cons (t s : Rat) (l : List Rat) : runMax t (s :: l) = runMax (max t s) l := by
  simp [runMax, List.foldl_cons]

theorem le_runMax (t : Rat) (l : List Rat) : t ≤ runMax t l :=
  init_le_foldl_max l t

theorem findBestLoop_eq (G : Geom) (cp : List (Int × Int)) :
    ∀ (ps : List RegionRec) (best : Rat) (bi : Option Nat) (n : Nat),
      findBestLoop G cp ps best bi n =
        (runMax best (scoresOf G cp ps),
          if best < runMax best (scoresOf G cp ps) then
            (firstIdxEq (runMax best (scoresOf G cp ps)) (scoresOf G cp ps)).map
              (fun k => k + n)
          else bi) := by
  intro ps
  induction ps with
  | nil =>
    intro best bi n
    simp [findBestLoop, scoresOf, runMax]
  | cons p ps ih =>
    intro best bi n
    have hs : scoresOf G cp (p :: ps) =
        calculateContainmentScore G cp p.points :: scoresOf G cp ps := by
      simp [scoresOf]
    rw [hs, runMax_cons]
    show (if best < calculateContainmentScore G cp p.points then
            findBestLoop G cp ps (calculateContainmentScore G cp p.points) (some n) (n + 1)
          else findBestLoop G cp ps best bi (n + 1)) = _
    set s := calculateContainmentScore G cp p.points with hsdef
    by_cases hlt : best < s
    · rw [if_pos hlt, ih s (some n) (n + 1)]
      have hmax : max best s = s := max_eq_right (le_of_lt hlt)
      rw [hmax]
      have hbestlt : best < runMax s (scoresOf G cp ps) :=
        lt_of_lt_of_le hlt (le_runMax s (scoresOf G cp ps))
      rw [if_pos hbestlt]
      by_cases hs2 : s = runMax s (scoresOf G cp ps)
      · have hns : ¬ s < runMax s (scoresOf G cp ps) := by rw [← hs2]; exact lt_irrefl s
        rw [if_neg hns]
        rw [firstIdxEq]
        rw [if_pos hs2]
        simp
      · have hslt : s < runMax s (scoresOf G cp ps) :=
          lt_of_le_of_ne (le_runMax s (scoresOf G cp ps)) hs2
        rw [if_pos hslt]
        rw [firstIdxEq]
        rw [if_neg hs2]
        cases firstIdxEq (runMax s (scoresOf G cp ps)) (scoresOf G cp ps) with
        | none => rfl
        | some k =>
          show (_, some (k + (n + 1))) = (_, some (k + 1 + n))
          congr 2
          omega
    · rw [if_neg hlt, ih best bi (n + 1)]
      have hmax : max best s = best := max_eq_left (not_lt.mp hlt)
      rw [hmax]
      by_cases hb : best < runMax best (scoresOf G cp ps)
      · rw [if_pos hb, if_pos hb]
        have hsne : ¬ s = runMax best (scoresOf G cp ps) := by
          intro hc
          rw [← hc] at hb
          exact hlt (lt_of_le_of_lt (le_refl best) hb)
        rw [firstIdxEq, if_neg hsne]
        cases firstIdxEq (runMax best (scoresOf G cp ps)) (scoresOf G cp ps) with
        | none => rfl
        | some k =>
          show (_, some (k + (n + 1))) = (_, some (k + 1 + n))
          congr 2
          omega
      · rw [if_neg hb, if_neg hb]

/-- The loop of `_find_best_parent` computes exactly the
first-strict-argmax specification. -/
theorem findBestParent_eq_spec (G : Geom) (cp : List (Int × Int))
    (parents : List RegionRec) (t : Rat) :
    findBestParent G cp parents t = firstStrictArgmax t (scoresOf G cp parents) := by
  unfold findBestParent firstStrictArgmax
  rw [findBestLoop_eq G cp parents t none 0]
  by_cases hb : t < runMax t (scoresOf G cp parents)
  · simp only [if_pos hb]
    cases hfi : firstIdxEq (runMax t (scoresOf G cp parents)) (scoresOf G cp parents) with
    | none => simp [hfi]
    | some k => simp [hfi, hb]
  · simp [if_neg hb]

/-- Claim C2: a nestable (child) `TextRegion` is attached as a child of the
first top-level region achieving the strictly greatest containment ratio, and
only when that maximum strictly exceeds the threshold `0.5`
(`findBestParent` equals the first-strict-argmax specification, which returns
`none` when the maximum is at most the threshold — in particular at exactly
`0.5`); when no parent is found the record instead becomes its own top-level
region directly under the page. -/
theorem claim2_nestable_region_attachment (G : Geom) (parents : List RegionRec)
    (st : BuildState) (c : RegionRec) :
    findBestParent G c.points parents
        = firstStrictArgmax (1/2) (scoresOf G c.points parents)
    ∧ (findBestParent G c.points parents = none →
        placeChild G parents st c =
          { st with
            orphanRegs := st.orphanRegs ++ [⟨c.id, c.rtype, c.points, [], []⟩]
            allTextRegions := st.allTextRegions ++
              [⟨RAddr.orphIdx st.orphanRegs.length, c.points⟩] })
    ∧ (∀ i t, findBestParent G c.points parents = some i → st.tops.get? i = some t →
        placeChild G parents st c =
          { st with
            tops := listModify
              (fun r => { r with subs := r.subs ++ [⟨c.id, c.rtype, c.points, []⟩] }) i st.tops
            allTextRegions := st.allTextRegions ++
              [⟨RAddr.subIdx i t.subs.length, c.points⟩] }) := by
  refine ⟨findBestParent_eq_spec G c.points parents (1/2), ?_, ?_⟩
  · intro h
    unfold placeChild
    rw [h]
  · intro i t hi ht
    unfold placeChild
    rw [hi]
    simp only [ht]

/-- Witness for C2: a child square half-covered by the candidate parent
(containment ratio exactly `0.5`) is not attached and is placed at page
level instead. -/
theorem claim2_witness :
    findBestParent boxGeom [(0, 0), (2, 0), (2, 2), (0, 2)]
        [⟨[(0, 0), (2, 0), (2, 1), (0, 1)], "r0000", none⟩] = none
    ∧ (placeChild boxGeom [⟨[(0, 0), (2, 0), (2, 1), (0, 1)], "r0000", none⟩]
        (pass2 [⟨[(0, 0), (2, 0), (2, 1), (0, 1)], "r0000", none⟩])
        ⟨[(0, 0), (2, 0), (2, 2), (0, 2)], "r0001", none⟩).orphanRegs
      = [⟨"r0001", none, [(0, 0), (2, 0), (2, 2), (0, 2)], [], []⟩] := by
  have h := claim2_nestable_region_attachment boxGeom
    [⟨[(0, 0), (2, 0), (2, 1), (0, 1)], "r0000", none⟩]
    (pass2 [⟨[(0, 0), (2, 0), (2, 1), (0, 1)], "r0000", none⟩])
    ⟨[(0, 0), (2, 0), (2, 2), (0, 2)], "r0001", none⟩
  have h1 : findBestParent boxGeom [(0, 0), (2, 0), (2, 2), (0, 2)]
      [⟨[(0, 0), (2, 0), (2, 1), (0, 1)], "r0000", none⟩] = none := by
    rw [h.1]
    with_unfolding_all decide
  refine ⟨h1, ?_⟩
  rw [h.2.1 h1]
  with_unfolding_all decide

/-- Qualification test of the fourth pass, with the line's area passed
explicitly: the candidate's overlap with the line strictly exceeds a tenth of
the line's area (and the line has positive area). -/
def qualifiesA (G : Geom) (linePoints : List (Int × Int)) (lineArea : Rat)
    (c : CandRegion) : Bool :=
  decide (0 < lineArea ∧ lineArea * (1/10) < calculatePolygonOverlap G linePoints c.points)

/-- Qualification of a candidate region for a leaf line. -/
def qualifies (G : Geom) (linePoints : List (Int × Int)) (c : CandRegion) : Bool :=
  qualifiesA G linePoints (lineAreaOf G linePoints) c

/-- First-encountered minimum-area candidate, starting from `b` (strict
comparison, so the earlier of two equal-area candidates is kept). -/
def firstMinLoop (G : Geom) : CandRegion → List CandRegion → CandRegion
  | b, [] => b
  | b, y :: ys =>
    if ltInf (regionAreaOf G y.points) (regionAreaOf G b.points) then firstMinLoop G y ys
    else firstMinLoop G b ys

/-- Specification of the fourth-pass selection: the first-encountered
smallest-area element of a candidate list. -/
def firstMinCand (G : Geom) : List CandRegion → Option CandRegion
  | [] => none
  | c :: cs => some (firstMinLoop G c cs)

theorem qualifiesA_valid (G : Geom) (lp : List (Int × Int)) (la : Rat)
    (c : CandRegion) (h : qualifiesA G lp la c = true) : G.valid c.points = true := by
  rw [qualifiesA, decide_eq_true_iff] at h
  obtain ⟨h0, h1⟩ := h
  by_contra hv
  rw [Bool.not_eq_true] at hv
  have hz : calculatePolygonOverlap G lp c.points = 0 := by
    unfold calculatePolygonOverlap
    rw [hv]
    simp
  rw [hz] at h1
  have hpos : 0 < la * (1/10) := mul_pos h0 (by norm_num)
  linarith

theorem qualifiesA_regionArea (G : Geom) (lp : List (Int × Int)) (la : Rat)
    (c : CandRegion) (h : qualifiesA G lp la c = true) :
    regionAreaOf G c.points = some (G.area c.points) := by
  unfold regionAreaOf
  rw [qualifiesA_valid G lp la c h]
  rfl

theorem ltInf_asymm {p q : Option Rat} (h : ltInf p q = true) : ltInf q p = false := by
  cases p with
  | none => simp [ltInf] at h
  | some x =>
    cases q with
    | none => simp [ltInf]
    | some y =>
      simp only [ltInf, decide_eq_true_iff] at h
      simp only [ltInf, decide_eq_false_iff_not]
      exact lt_asymm h

theorem firstMinLoop_cons (G : Geom) (b y : CandRegion) (ys : List CandRegion) :
    firstMinLoop G b (y :: ys) =
      if ltInf (regionAreaOf G y.points) (regionAreaOf G b.points) then firstMinLoop G y ys
      else firstMinLoop G b ys := rfl

theorem assignLoop_min (G : Geom) (lp : List (Int × Int)) (la : Rat) :
    ∀ (cs : List CandRegion) (b : CandRegion),
      assignLoop G lp la cs (some b.addr) (regionAreaOf G b.points)
        = some (firstMinLoop G b (cs.filter (qualifiesA G lp la))).addr := by
  intro cs
  induction cs with
  | nil => intro b; rfl
  | cons c cs ih =>
    intro b
    by_cases hq : 0 < la ∧ la * (1/10) < calculatePolygonOverlap G lp c.points
    · have hqb : qualifiesA G lp la c = true := by
        rw [qualifiesA, decide_eq_true_iff]
        exact hq
      have hfil : (c :: cs).filter (qualifiesA G lp la)
          = c :: cs.filter (qualifiesA G lp la) := by
        simp [List.filter_cons, hqb]
      rw [hfil]
      show (if 0 < la ∧ la * (1/10) < calculatePolygonOverlap G lp c.points then
              if ltInf (regionAreaOf G c.points) (regionAreaOf G b.points) then
                assignLoop G lp la cs (some c.addr) (regionAreaOf G c.points)
              else assignLoop G lp la cs (some b.addr) (regionAreaOf G b.points)
            else assignLoop G lp la cs (some b.addr) (regionAreaOf G b.points)) = _
      rw [if_pos hq]
      by_cases hlt : ltInf (regionAreaOf G c.points) (regionAreaOf G b.points) = true
      · rw [if_pos hlt, ih c, firstMinLoop_cons, if_pos hlt]
      · rw [Bool.not_eq_true] at hlt
        rw [hlt]
        simp only [Bool.false_eq_true, if_false]
        rw [ih b, firstMinLoop_cons, hlt]
        simp
    · have hqb : qualifiesA G lp la c = false := by
        rw [qualifiesA, decide_eq_false_iff_not]
        exact hq
      have hfil : (c :: cs).filter (qualifiesA G lp la)
          = cs.filter (qualifiesA G lp la) := by
        simp [List.filter_cons, hqb]
      rw [hfil]
      show (if 0 < la ∧ la * (1/10) < calculatePolygonOverlap G lp c.points then
              if ltInf (regionAreaOf G c.points) (regionAreaOf G b.points) then
                assignLoop G lp la cs (some c.addr) (regionAreaOf G c.points)
              else assignLoop G lp la cs (some b.addr) (regionAreaOf G b.points)
            else assignLoop G lp la cs (some b.addr) (regionAreaOf G b.points)) = _
      rw [if_neg hq, ih b]

theorem assignLoop_start (G : Geom) (lp : List (Int × Int)) (la : Rat) :
    ∀ cs : List CandRegion,
      assignLoop G lp la cs none none
        = (firstMinCand G (cs.filter (qualifiesA G lp la))).map CandRegion.addr := by
  intro cs
  induction cs with
  | nil => rfl
  | cons c cs ih =>
    by_cases hq : 0 < la ∧ la * (1/10) < calculatePolygonOverlap G lp c.points
    · have hqb : qualifiesA G lp la c = true := by
        rw [qualifiesA, decide_eq_true_iff]
        exact hq
      have hra : regionAreaOf G c.points = some (G.area c.points) :=
        qualifiesA_regionArea G lp la c hqb
      have hfil : (c :: cs).filter (qualifiesA G lp la)
          = c :: cs.filter (qualifiesA G lp la) := by
        simp [List.filter_cons, hqb]
      rw [hfil]
      show (if 0 < la ∧ la * (1/10) < calculatePolygonOverlap G lp c.points then
              if ltInf (regionAreaOf G c.points) none then
                assignLoop G lp la cs (some c.addr) (regionAreaOf G c.points)
              else assignLoop G lp la cs none none
            else assignLoop G lp la cs none none) = _
      rw [if_pos hq]
      have hlt : ltInf (regionAreaOf G c.points) none = true := by
        rw [hra]
        rfl
      rw [if_pos hlt, assignLoop_min G lp la cs c]
      rfl
    · have hqb : qualifiesA G lp la c = false := by
        rw [qualifiesA, decide_eq_false_iff_not]
        exact hq
      have hfil : (c :: cs).filter (qualifiesA G lp la)
          = cs.filter (qualifiesA G lp la) := by
        simp [List.filter_cons, hqb]
      rw [hfil]
      show (if 0 < la ∧ la * (1/10) < calculatePolygonOverlap G lp c.points then
              if ltInf (regionAreaOf G c.points) none then
                assignLoop G lp la cs (some c.addr) (regionAreaOf G c.points)
              else assignLoop G lp la cs none none
            else assignLoop G lp la cs none none) = _
      rw [if_neg hq, ih]

/-- Claim C1: leaf placement selects, among the candidate regions whose
intersection area with the leaf strictly exceeds `0.1` times the leaf's own
area, the candidate with the smallest polygon area, first-encountered on ties
(`assignLeaf` equals the first-minimum specification over the qualifying
candidates); in particular, for two qualifying regions where `b` has strictly
smaller area than `a` (e.g. `b`'s polygon strictly inside `a`'s with the leaf
fully inside `b`), the leaf goes to `b` in either enumeration order, and the
chosen region is the one the fourth pass appends the `TextLine` to. -/
theorem claim1_leaf_assigned_smallest_region (G : Geom) (cands : List CandRegion)
    (lp : List (Int × Int)) :
    assignLeaf G cands lp
        = (firstMinCand G (cands.filter (qualifies G lp))).map CandRegion.addr
    ∧ (∀ a b : CandRegion,
        qualifies G lp a = true → qualifies G lp b = true →
        ltInf (regionAreaOf G b.points) (regionAreaOf G a.points) = true →
        (cands = [a, b] ∨ cands = [b, a]) →
        assignLeaf G cands lp = some b.addr)
    ∧ (∀ (st : BuildState) (l : LineRec) (a : RAddr),
        assignLeaf G st.allTextRegions l.points = some a →
        pass4Step G st l = appendLineAt ⟨l.id, l.points⟩ st a) := by
  have hmain : assignLeaf G cands lp
      = (firstMinCand G (cands.filter (qualifies G lp))).map CandRegion.addr :=
    assignLoop_start G lp (lineAreaOf G lp) cands
  refine ⟨hmain, ?_, ?_⟩
  · intro a b ha hb hba hor
    have hmain2 : ∀ cs, assignLeaf G cs lp
        = (firstMinCand G (cs.filter (qualifies G lp))).map CandRegion.addr :=
      fun cs => assignLoop_start G lp (lineAreaOf G lp) cs
    rcases hor with h | h
    · subst h
      rw [hmain2 [a, b]]
      have hfil : [a, b].filter (qualifies G lp) = [a, b] := by
        simp [List.filter_cons, ha, hb]
      rw [hfil]
      show some (firstMinLoop G a [b]).addr = some b.addr
      rw [firstMinLoop_cons, if_pos hba]
      rfl
    · subst h
      rw [hmain2 [b, a]]
      have hfil : [b, a].filter (qualifies G lp) = [b, a] := by
        simp [List.filter_cons, ha, hb]
      rw [hfil]
      show some (firstMinLoop G b [a]).addr = some b.addr
      rw [firstMinLoop_cons, ltInf_asymm hba]
      simp [firstMinLoop]
  · intro st l a h
    unfold pass4Step
    rw [h]

/-- Witness for C1: with two qualifying nested boxes, the leaf is assigned to
the smaller one in both enumeration orders. -/
theorem claim1_witness :
    assignLeaf boxGeom
        [⟨RAddr.topIdx 0, [(0, 0), (100, 0), (100, 100), (0, 100)]⟩,
         ⟨RAddr.topIdx 1, [(0, 0), (10, 0), (10, 10), (0, 10)]⟩]
        [(0, 0), (4, 0), (4, 4), (0, 4)] = some (RAddr.topIdx 1)
    ∧ assignLeaf boxGeom
        [⟨RAddr.topIdx 1, [(0, 0), (10, 0), (10, 10), (0, 10)]⟩,
         ⟨RAddr.topIdx 0, [(0, 0), (100, 0), (100, 100), (0, 100)]⟩]
        [(0, 0), (4, 0), (4, 4), (0, 4)] = some (RAddr.topIdx 1) :=
  ⟨(claim1_leaf_assigned_smallest_region boxGeom
      [⟨RAddr.topIdx 0, [(0, 0), (100, 0), (100, 100), (0, 100)]⟩,
       ⟨RAddr.topIdx 1, [(0, 0), (10, 0), (10, 10), (0, 10)]⟩]
      [(0, 0), (4, 0), (4, 4), (0, 4)]).2.1
      ⟨RAddr.topIdx 0, [(0, 0), (100, 0), (100, 100), (0, 100)]⟩
      ⟨RAddr.topIdx 1, [(0, 0), (10, 0), (10, 10), (0, 10)]⟩
      (by with_unfolding_all decide) (by with_unfolding_all decide)
      (by with_unfolding_all decide) (Or.inl rfl),
   (claim1_leaf_assigned_smallest_region boxGeom
      [⟨RAddr.topIdx 1, [(0, 0), (10, 0), (10, 10), (0, 10)]⟩,
       ⟨RAddr.topIdx 0, [(0, 0), (100, 0), (100, 100), (0, 100)]⟩]
      [(0, 0), (4, 0), (4, 4), (0, 4)]).2.1
      ⟨RAddr.topIdx 0, [(0, 0), (100, 0), (100, 100), (0, 100)]⟩
      ⟨RAddr.topIdx 1, [(0, 0), (10, 0), (10, 10), (0, 10)]⟩
      (by with_unfolding_all decide) (by with_unfolding_all decide)
      (by with_unfolding_all decide) (Or.inr rfl)⟩

/-- The manufactured orphan container for an unplaced leaf. -/
def orphanRegionFor (st : BuildState) (l : LineRec) : TopRegionNode :=
  ⟨"r_orphan" ++ pad4 st.orphanLineCount,
    some (cfgGetD l.config "parent_type" "paragraph"), l.points, [],
    [⟨l.id, l.points⟩]⟩

theorem pass4Step_none (G : Geom) (st : BuildState) (l : LineRec)
    (h : assignLeaf G st.allTextRegions l.points = none) :
    pass4Step G st l =
      { st with
        orphanLineRegs := st.orphanLineRegs ++ [orphanRegionFor st l]
        orphanLineCount := st.orphanLineCount + 1 } := by
  unfold pass4Step
  rw [h]
  rfl

theorem pass4Step_allTextRegions (G : Geom) (st : BuildState) (l : LineRec) :
    (pass4Step G st l).allTextRegions = st.allTextRegions := by
  unfold pass4Step
  cases assignLeaf G st.allTextRegions l.points with
  | none => rfl
  | some a =>
    unfold appendLineAt
    cases a <;> rfl

theorem pass4Step_orphanExtend (G : Geom) (st : BuildState) (l : LineRec) :
    ∃ ext, (pass4Step G st l).orphanLineRegs = st.orphanLineRegs ++ ext := by
  unfold pass4Step
  cases assignLeaf G st.allTextRegions l.points with
  | none => exact ⟨[orphanRegionFor st l], rfl⟩
  | some a =>
    refine ⟨[], ?_⟩
    unfold appendLineAt
    cases a <;> simp

theorem pass4_allTextRegions (G : Geom) :
    ∀ (ls : List LineRec) (st : BuildState),
      (pass4 G st ls).allTextRegions = st.allTextRegions := by
  intro ls
  induction ls with
  | nil => intro st; rfl
  | cons l ls ih =>
    intro st
    show (pass4 G (pass4Step G st l) ls).allTextRegions = _
    rw [ih (pass4Step G st l), pass4Step_allTextRegions]

theorem pass4_orphanExtend (G : Geom) :
    ∀ (ls : List LineRec) (st : BuildState),
      ∃ ext, (pass4 G st ls).orphanLineRegs = st.orphanLineRegs ++ ext := by
  intro ls
  induction ls with
  | nil => intro st; exact ⟨[], by simp [pass4]⟩
  | cons l ls ih =>
    intro st
    obtain ⟨e1, he1⟩ := pass4Step_orphanExtend G st l
    obtain ⟨e2, he2⟩ := ih (pass4Step G st l)
    refine ⟨e1 ++ e2, ?_⟩
    show (pass4 G (pass4Step G st l) ls).orphanLineRegs = _
    rw [he2, he1, List.append_assoc]

/-- Claim C4: a leaf for which no candidate qualifies is placed in exactly one
freshly manufactured page-level region (id `r_orphanNNNN`, type the leaf's
`parent_type`, default `paragraph`) holding exactly that leaf, the orphan
counter advances, and manufactured containers are never candidates for later
leaves: the candidate list `all_text_regions` is invariant across the whole
fourth pass, and existing orphan containers are only ever extended past, never
modified. -/
theorem claim4_orphan_leaf_fallback (G : Geom) (st : BuildState) (l : LineRec)
    (h : assignLeaf G st.allTextRegions l.points = none) :
    pass4Step G st l =
      { st with
        orphanLineRegs := st.orphanLineRegs ++
          [⟨"r_orphan" ++ pad4 st.orphanLineCount,
            some (cfgGetD l.config "parent_type" "paragraph"), l.points, [],
            [⟨l.id, l.points⟩]⟩]
        orphanLineCount := st.orphanLineCount + 1 }
    ∧ (∀ (st1 : BuildState) (ls : List LineRec),
        (pass4 G st1 ls).allTextRegions = st1.allTextRegions)
    ∧ (∀ (st1 : BuildState) (ls : List LineRec),
        ∃ ext, (pass4 G st1 ls).orphanLineRegs = st1.orphanLineRegs ++ ext) :=
  ⟨pass4Step_none G st l h,
   fun st1 ls => pass4_allTextRegions G ls st1,
   fun st1 ls => pass4_orphanExtend G ls st1⟩

/-- Witness for C4: a leaf far outside the only candidate region gets its own
manufactured `paragraph` container. -/
theorem claim4_witness :
    (pass4Step boxGeom
        ⟨[⟨"r0000", none, [(0, 0), (10, 0), (10, 10), (0, 10)], [], []⟩], [], [], 0,
          [⟨RAddr.topIdx 0, [(0, 0), (10, 0), (10, 10), (0, 10)]⟩]⟩
        ⟨[(50, 50), (60, 50), (60, 60), (50, 60)], "l0001", []⟩).orphanLineRegs
      = [⟨"r_orphan0000", some "paragraph", [(50, 50), (60, 50), (60, 60), (50, 60)], [],
          [⟨"l0001", [(50, 50), (60, 50), (60, 60), (50, 60)]⟩]⟩] := by
  have h := (claim4_orphan_leaf_fallback boxGeom
    ⟨[⟨"r0000", none, [(0, 0), (10, 0), (10, 10), (0, 10)], [], []⟩], [], [], 0,
      [⟨RAddr.topIdx 0, [(0, 0), (10, 0), (10, 10), (0, 10)]⟩]⟩
    ⟨[(50, 50), (60, 50), (60, 60), (50, 60)], "l0001", []⟩
    (by with_unfolding_all decide)).1
  rw [h]
  rfl

/-- Claim C8: a leaf whose own polygon is invalid or has zero area
unconditionally takes the orphan branch — no candidate region qualifies,
and it is assigned to a freshly manufactured top-level region. -/
theorem claim8_invalid_leaf_orphan (G : Geom) (st : BuildState) (l : LineRec)
    (h : G.valid l.points = false ∨ G.area l.points = 0) :
    assignLeaf G st.allTextRegions l.points = none
    ∧ pass4Step G st l =
      { st with
        orphanLineRegs := st.orphanLineRegs ++ [orphanRegionFor st l]
        orphanLineCount := st.orphanLineCount + 1 } := by
  have hla : lineAreaOf G l.points = 0 := by
    unfold lineAreaOf
    rcases h with h | h
    · rw [h]
      rfl
    · rw [h]
      simp
  have hnp : ¬ 0 < lineAreaOf G l.points := by
    rw [hla]
    exact lt_irrefl 0
  have hloop : ∀ (cs : List CandRegion) (best : Option RAddr) (ba : Option Rat),
      assignLoop G l.points (lineAreaOf G l.points) cs best ba = best := by
    intro cs
    induction cs with
    | nil => intro best ba; rfl
    | cons c cs ih =>
      intro best ba
      show (if 0 < lineAreaOf G l.points ∧ _ then _ else
              assignLoop G l.points (lineAreaOf G l.points) cs best ba) = best
      rw [if_neg (fun hc => hnp hc.1)]
      exact ih best ba
  have hnone : assignLeaf G st.allTextRegions l.points = none :=
    hloop st.allTextRegions none none
  exact ⟨hnone, pass4Step_none G st l hnone⟩

/-- Witness for C8: a leaf whose three vertices coincide (zero-area bounding
box, invalid) falls to the orphan branch. -/
theorem claim8_witness :
    assignLeaf boxGeom [⟨RAddr.topIdx 0, [(0, 0), (10, 0), (10, 10), (0, 10)]⟩]
        [(5, 5), (5, 5), (5, 5)] = none :=
  (claim8_invalid_leaf_orphan boxGeom
    ⟨[⟨"r0000", none, [(0, 0), (10, 0), (10, 10), (0, 10)], [], []⟩], [], [], 0,
      [⟨RAddr.topIdx 0, [(0, 0), (10, 0), (10, 10), (0, 10)]⟩]⟩
    ⟨[(5, 5), (5, 5), (5, 5)], "l0000", []⟩
    (Or.inl (by with_unfolding_all decide))).1

/-! ## Node accounting for the no-data-loss claim -/

/-- Number of `TextLine` nodes inside a top-level region (its own plus those
of its nested sub-regions). -/
def topLines (t : TopRegionNode) : Nat :=
  t.lines.length + (t.subs.map (fun s => s.lines.length)).sum

def regLinesSum (l : List TopRegionNode) : Nat := (l.map topLines).sum

/-- All `TextLine` nodes in the built state. -/
def stateLines (st : BuildState) : Nat :=
  regLinesSum st.tops + regLinesSum st.orphanRegs + regLinesSum st.orphanLineRegs

/-- Number of `TextRegion` nodes rooted at a top-level region. -/
def topRegCount (t : TopRegionNode) : Nat := 1 + t.subs.length

def regCountSum (l : List TopRegionNode) : Nat := (l.map topRegCount).sum

/-- `TextRegion` nodes that stem from input records (manufactured orphan-line
containers are excluded — they correspond to no record). -/
def stateRecRegions (st : BuildState) : Nat :=
  regCountSum st.tops + regCountSum st.orphanRegs

/-- A region address is live in the state. -/
def addrOK (st : BuildState) : RAddr → Prop
  | RAddr.topIdx i => i < st.tops.length
  | RAddr.subIdx i j => ∃ t, st.tops.get? i = some t ∧ j < t.subs.length
  | RAddr.orphIdx i => i < st.orphanRegs.length

/-- Every reference held in `all_text_regions` points at a live region. -/
def stInv (st : BuildState) : Prop :=
  ∀ c ∈ st.allTextRegions, addrOK st c.addr

/-- A record whose configuration is non-empty and whose element type is one
the converter recognizes (`TextLine`, `TextRegion`, or an opaque region
type); only such records produce nodes. -/
def recognizedRecord (m : Mapping) (r : ParsedRec) : Bool :=
  let cfg := mappingGet m (toString r.classId)
  !cfg.isEmpty &&
    decide (cfgGetD cfg "element" "TextLine" ∈ "TextLine" :: "TextRegion" :: opaqueTypes)

/-- Total records retained by categorization. -/
def classifiedNodeCount (cl : Classified) : Nat :=
  cl.parentTextRegions.length + cl.childTextRegions.length
    + cl.textLines.length + cl.opaques.length

theorem sum_map_eq_length {α : Type} (f : α → Nat) :
    ∀ l : List α, (∀ x ∈ l, f x = 1) → (l.map f).sum = l.length := by
  intro l
  induction l with
  | nil => intro _; rfl
  | cons x xs ih =>
    intro h
    simp only [List.map_cons, List.sum_cons, List.length_cons]
    rw [h x (List.mem_cons_self x xs), ih (fun y hy => h y (List.mem_cons_of_mem x hy))]
    omega

theorem sum_map_eq_zero {α : Type} (f : α → Nat) :
    ∀ l : List α, (∀ x ∈ l, f x = 0) → (l.map f).sum = 0 := by
  intro l
  induction l with
  | nil => intro _; rfl
  | cons x xs ih =>
    intro h
    simp only [List.map_cons, List.sum_cons]
    rw [h x (List.mem_cons_self x xs), ih (fun y hy => h y (List.mem_cons_of_mem x hy))]

theorem classifyRecords_cons (m : Mapping) (r : ParsedRec) (rs : List ParsedRec) :
    classifyRecords m (r :: rs) = (contribOf m r).append (classifyRecords m rs) := by
  unfold classifyRecords
  simp only [List.foldl_cons]
  rw [classify_foldl_append]
  rfl

theorem classifiedNodeCount_append (a b : Classified) :
    classifiedNodeCount (a.append b) = classifiedNodeCount a + classifiedNodeCount b := by
  simp [classifiedNodeCount, Classified.append]
  omega

theorem contrib_count (m : Mapping) (r : ParsedRec)
    (h : recognizedRecord m r = true) : classifiedNodeCount (contribOf m r) = 1 := by
  unfold recognizedRecord at h
  rw [Bool.and_eq_true] at h
  obtain ⟨hne, hmem⟩ := h
  rw [Bool.not_eq_true'] at hne
  rw [decide_eq_true_iff] at hmem
  unfold contribOf classifyStep
  dsimp only
  rw [hne]
  simp only [Bool.false_eq_true, if_false]
  by_cases h2 : cfgGetD (mappingGet m (toString r.classId)) "element" "TextLine" = "TextLine"
  · rw [if_pos h2]
    rfl
  · rw [if_neg h2]
    by_cases h3 : cfgGetD (mappingGet m (toString r.classId)) "element" "TextLine" = "TextRegion"
    · rw [if_pos h3]
      by_cases h4 : cfgGetD (mappingGet m (toString r.classId)) "parent" "" = "TextRegion"
      · rw [if_pos h4]
        rfl
      · rw [if_neg h4]
        rfl
    · rw [if_neg h3]
      have h5 : cfgGetD (mappingGet m (toString r.classId)) "element" "TextLine" ∈ opaqueTypes := by
        simp only [List.mem_cons] at hmem
        rcases hmem with hm | hm | hm
        · exact absurd hm h2
        · exact absurd hm h3
        · exact hm
      rw [if_pos h5]
      rfl

theorem classify_count (m : Mapping) :
    ∀ recs : List ParsedRec, (∀ r ∈ recs, recognizedRecord m r = true) →
      classifiedNodeCount (classifyRecords m recs) = recs.length := by
  intro recs
  induction recs with
  | nil => intro _; rfl
  | cons r rs ih =>
    intro h
    rw [classifyRecords_cons, classifiedNodeCount_append,
      contrib_count m r (h r (List.mem_cons_self r rs)),
      ih (fun y hy => h y (List.mem_cons_of_mem r hy))]
    simp only [List.length_cons]
    omega

theorem pass2_tops_length (parents : List RegionRec) :
    (pass2 parents).tops.length = parents.length := by
  simp [pass2]

theorem sum_map_comp_eq_length {α β : Type} (f : α → β) (g : β → Nat) :
    ∀ l : List α, (∀ x, g (f x) = 1) → ((l.map f).map g).sum = l.length := by
  intro l h
  induction l with
  | nil => rfl
  | cons x xs ih =>
    simp only [List.map_cons, List.sum_cons, List.length_cons, h x, ih]
    omega

theorem sum_map_comp_eq_zero {α β : Type} (f : α → β) (g : β → Nat) :
    ∀ l : List α, (∀ x, g (f x) = 0) → ((l.map f).map g).sum = 0 := by
  intro l h
  induction l with
  | nil => rfl
  | cons x xs ih => simp only [List.map_cons, List.sum_cons, h x, ih]

theorem pass2_recRegions (parents : List RegionRec) :
    stateRecRegions (pass2 parents) = parents.length := by
  unfold stateRecRegions pass2 regCountSum
  rw [sum_map_comp_eq_length _ _ parents]
  · simp
  · intro x
    rfl

theorem pass2_lines (parents : List RegionRec) :
    stateLines (pass2 parents) = 0 := by
  unfold stateLines pass2 regLinesSum
  rw [sum_map_comp_eq_zero _ _ parents]
  · simp
  · intro x
    rfl

theorem pass2_inv (parents : List RegionRec) : stInv (pass2 parents) := by
  intro c hc
  unfold pass2 at hc
  simp only [List.mem_map] at hc
  obtain ⟨ip, hip, rfl⟩ := hc
  have hg : parents[ip.1]? = some ip.2 := List.mem_enum_iff_getElem?.mp hip
  have hlt : ip.1 < parents.length := by
    rcases List.getElem?_eq_some.mp hg with ⟨h, _⟩
    exact h
  show ip.1 < (pass2 parents).tops.length
  rw [pass2_tops_length]
  exact hlt

theorem findBestLoop_some_bound (G : Geom) (cp : List (Int × Int)) :
    ∀ (ps : List RegionRec) (best : Rat) (bi : Option Nat) (n i : Nat),
      (findBestLoop G cp ps best bi n).2 = some i →
      bi = some i ∨ i < n + ps.length := by
  intro ps
  induction ps with
  | nil =>
    intro best bi n i h
    exact Or.inl h
  | cons p ps ih =>
    intro best bi n i h
    unfold findBestLoop at h
    dsimp only at h
    by_cases hlt : best < calculateContainmentScore G cp p.points
    · rw [if_pos hlt] at h
      rcases ih _ _ _ _ h with h1 | h1
      · right
        have : n = i := Option.some.inj h1
        simp only [List.length_cons]
        omega
      · right
        simp only [List.length_cons]
        omega
    · rw [if_neg hlt] at h
      rcases ih _ _ _ _ h with h1 | h1
      · exact Or.inl h1
      · right
        simp only [List.length_cons]
        omega

theorem findBestParent_lt (G : Geom) (cp : List (Int × Int))
    (parents : List RegionRec) (t : Rat) (i : Nat)
    (h : findBestParent G cp parents t = some i) : i < parents.length := by
  unfold findBestParent at h
  dsimp only at h
  cases hr : (findBestLoop G cp parents t none 0).2 with
  | none => rw [hr] at h; cases h
  | some k =>
    rw [hr] at h
    change (if t < (findBestLoop G cp parents t none 0).1 then some k else none) = some i at h
    by_cases hb : t < (findBestLoop G cp parents t none 0).1
    · rw [if_pos hb] at h
      have hk : k = i := Option.some.inj h
      rcases findBestLoop_some_bound G cp parents t none 0 k hr with h1 | h1
      · cases h1
      · omega
    · rw [if_neg hb] at h
      cases h

theorem regCountSum_append (a b : List TopRegionNode) :
    regCountSum (a ++ b) = regCountSum a + regCountSum b := by
  simp [regCountSum]

theorem regLinesSum_append (a b : List TopRegionNode) :
    regLinesSum (a ++ b) = regLinesSum a + regLinesSum b := by
  simp [regLinesSum]

theorem regCountSum_listModify_succ (f : TopRegionNode → TopRegionNode) (i : Nat)
    (l : List TopRegionNode) (x : TopRegionNode) (hget : l.get? i = some x)
    (hf : topRegCount (f x) = topRegCount x + 1) :
    regCountSum (listModify f i l) = regCountSum l + 1 := by
  have h := sum_map_listModify topRegCount f i l x hget
  unfold regCountSum
  omega

theorem regLinesSum_listModify_eq (f : TopRegionNode → TopRegionNode) (i : Nat)
    (l : List TopRegionNode) (x : TopRegionNode) (hget : l.get? i = some x)
    (hf : topLines (f x) = topLines x) :
    regLinesSum (listModify f i l) = regLinesSum l := by
  have h := sum_map_listModify topLines f i l x hget
  unfold regLinesSum
  omega

theorem regLinesSum_listModify_succ (f : TopRegionNode → TopRegionNode) (i : Nat)
    (l : List TopRegionNode) (x : TopRegionNode) (hget : l.get? i = some x)
    (hf : topLines (f x) = topLines x + 1) :
    regLinesSum (listModify f i l) = regLinesSum l + 1 := by
  have h := sum_map_listModify topLines f i l x hget
  unfold regLinesSum
  omega

theorem regCountSum_listModify_eq (f : TopRegionNode → TopRegionNode) (i : Nat)
    (l : List TopRegionNode) (x : TopRegionNode) (hget : l.get? i = some x)
    (hf : topRegCount (f x) = topRegCount x) :
    regCountSum (listModify f i l) = regCountSum l := by
  have h := sum_map_listModify topRegCount f i l x hget
  unfold regCountSum
  omega

theorem placeChild_props (G : Geom) (parents : List RegionRec) (st : BuildState)
    (c : RegionRec) (hlen : st.tops.length = parents.length) (hinv : stInv st) :
    (placeChild G parents st c).tops.length = st.tops.length
    ∧ stateRecRegions (placeChild G parents st c) = stateRecRegions st + 1
    ∧ stateLines (placeChild G parents st c) = stateLines st
    ∧ stInv (placeChild G parents st c)
    ∧ (placeChild G parents st c).orphanLineRegs = st.orphanLineRegs
    ∧ (placeChild G parents st c).orphanLineCount = st.orphanLineCount := by
  cases hfb : findBestParent G c.points parents with
  | none =>
    have hpc : placeChild G parents st c =
        { st with
          orphanRegs := st.orphanRegs ++ [⟨c.id, c.rtype, c.points, [], []⟩]
          allTextRegions := st.allTextRegions ++
            [⟨RAddr.orphIdx st.orphanRegs.length, c.points⟩] } := by
      unfold placeChild
      rw [hfb]
    rw [hpc]
    refine ⟨rfl, ?_, ?_, ?_, rfl, rfl⟩
    · unfold stateRecRegions
      simp only
      rw [regCountSum_append]
      have h1 : regCountSum [⟨c.id, c.rtype, c.points, [], []⟩] = 1 := rfl
      rw [h1]
      omega
    · unfold stateLines
      simp only
      rw [regLinesSum_append]
      have h1 : regLinesSum [⟨c.id, c.rtype, c.points, [], []⟩] = 0 := rfl
      rw [h1]
      omega
    · intro c' hc'
      simp only [List.mem_append, List.mem_singleton] at hc'
      rcases hc' with hold | hnew
      · have h0 := hinv c' hold
        cases ha : c'.addr with
        | topIdx k =>
          rw [ha] at h0
          exact h0
        | subIdx k l =>
          rw [ha] at h0
          exact h0
        | orphIdx k =>
          rw [ha] at h0
          show k < (st.orphanRegs ++ [(⟨c.id, c.rtype, c.points, [], []⟩ : TopRegionNode)]).length
          rw [List.length_append]
          exact Nat.lt_of_lt_of_le h0 (Nat.le_add_right _ _)
      · subst hnew
        show st.orphanRegs.length
            < (st.orphanRegs ++ [(⟨c.id, c.rtype, c.points, [], []⟩ : TopRegionNode)]).length
        rw [List.length_append]
        simp
  | some i =>
    have hi : i < st.tops.length := by
      rw [hlen]
      exact findBestParent_lt G c.points parents (1/2) i hfb
    obtain ⟨t, hget⟩ : ∃ t, st.tops.get? i = some t :=
      ⟨st.tops.get ⟨i, hi⟩, List.get?_eq_get hi⟩
    have hpc : placeChild G parents st c =
        { st with
          tops := listModify
            (fun r => { r with subs := r.subs ++ [⟨c.id, c.rtype, c.points, []⟩] }) i st.tops
          allTextRegions := st.allTextRegions ++
            [⟨RAddr.subIdx i t.subs.length, c.points⟩] } := by
      unfold placeChild
      rw [hfb]
      simp only [hget]
    rw [hpc]
    refine ⟨listModify_length _ i st.tops, ?_, ?_, ?_, rfl, rfl⟩
    · unfold stateRecRegions
      simp only
      rw [regCountSum_listModify_succ _ i st.tops t hget (by simp [topRegCount]; omega)]
      omega
    · unfold stateLines
      simp only
      rw [regLinesSum_listModify_eq _ i st.tops t hget (by simp [topLines])]
    · intro c' hc'
      simp only [List.mem_append, List.mem_singleton] at hc'
      rcases hc' with hold | hnew
      · have h0 := hinv c' hold
        cases ha : c'.addr with
        | topIdx k =>
          rw [ha] at h0
          show k < (listModify _ i st.tops).length
          rw [listModify_length]
          exact h0
        | subIdx k l =>
          rw [ha] at h0
          obtain ⟨u, hu, hl⟩ := h0
          show ∃ u', (listModify _ i st.tops).get? k = some u' ∧ l < u'.subs.length
          rw [listModify_get?]
          by_cases hik : i = k
          · subst hik
            have hut : u = t := by
              rw [hu] at hget
              exact Option.some.inj hget
            refine ⟨{ u with subs := u.subs ++ [⟨c.id, c.rtype, c.points, []⟩] }, ?_, ?_⟩
            · rw [if_pos rfl, hu]
              rfl
            · simp only [List.length_append, List.length_singleton]
              omega
          · exact ⟨u, by rw [if_neg hik]; exact hu, hl⟩
        | orphIdx k =>
          rw [ha] at h0
          exact h0
      · subst hnew
        show ∃ u', (listModify _ i st.tops).get? i = some u' ∧ t.subs.length < u'.subs.length
        rw [listModify_get?, if_pos rfl, hget]
        refine ⟨{ t with subs := t.subs ++ [⟨c.id, c.rtype, c.points, []⟩] }, rfl, ?_⟩
        simp only [List.length_append, List.length_singleton]
        omega

theorem pass3_props (G : Geom) (parents : List RegionRec) :
    ∀ (childs : List RegionRec) (st : BuildState),
      stInv st → st.tops.length = parents.length →
      (pass3 G parents st childs).tops.length = st.tops.length
      ∧ stateRecRegions (pass3 G parents st childs) = stateRecRegions st + childs.length
      ∧ stateLines (pass3 G parents st childs) = stateLines st
      ∧ stInv (pass3 G parents st childs)
      ∧ (pass3 G parents st childs).orphanLineRegs = st.orphanLineRegs
      ∧ (pass3 G parents st childs).orphanLineCount = st.orphanLineCount := by
  intro childs
  induction childs with
  | nil =>
    intro st h1 h2
    refine ⟨rfl, ?_, rfl, h1, rfl, rfl⟩
    simp [pass3]
  | cons c cs ih =>
    intro st h1 h2
    have hp := placeChild_props G parents st c h2 h1
    have hstep : pass3 G parents st (c :: cs)
        = pass3 G parents (placeChild G parents st c) cs := by
      simp [pass3, List.foldl_cons]
    have ihp := ih (placeChild G parents st c) hp.2.2.2.1 (by rw [hp.1, h2])
    rw [hstep]
    refine ⟨?_, ?_, ?_, ihp.2.2.2.1, ?_, ?_⟩
    · rw [ihp.1, hp.1]
    · rw [ihp.2.1, hp.2.1]
      simp only [List.length_cons]
      omega
    · rw [ihp.2.2.1, hp.2.2.1]
    · rw [ihp.2.2.2.2.1, hp.2.2.2.2.1]
    · rw [ihp.2.2.2.2.2, hp.2.2.2.2.2]

theorem assignLoop_some_mem (G : Geom) (lp : List (Int × Int)) (la : Rat) :
    ∀ (cs : List CandRegion) (best : Option RAddr) (ba : Option Rat) (a : RAddr),
      assignLoop G lp la cs best ba = some a →
      best = some a ∨ ∃ c ∈ cs, c.addr = a := by
  intro cs
  induction cs with
  | nil =>
    intro best ba a h
    exact Or.inl h
  | cons c cs ih =>
    intro best ba a h
    unfold assignLoop at h
    dsimp only at h
    by_cases hq : 0 < la ∧ la * (1/10) < calculatePolygonOverlap G lp c.points
    · rw [if_pos hq] at h
      by_cases hlt : ltInf (regionAreaOf G c.points) ba = true
      · rw [if_pos hlt] at h
        rcases ih _ _ _ h with h1 | h1
        · right
          exact ⟨c, List.mem_cons_self c cs, Option.some.inj h1⟩
        · right
          obtain ⟨c', hc', he⟩ := h1
          exact ⟨c', List.mem_cons_of_mem c hc', he⟩
      · rw [Bool.not_eq_true] at hlt
        rw [hlt] at h
        simp only [Bool.false_eq_true, if_false] at h
        rcases ih _ _ _ h with h1 | h1
        · exact Or.inl h1
        · right
          obtain ⟨c', hc', he⟩ := h1
          exact ⟨c', List.mem_cons_of_mem c hc', he⟩
    · rw [if_neg hq] at h
      rcases ih _ _ _ h with h1 | h1
      · exact Or.inl h1
      · right
        obtain ⟨c', hc', he⟩ := h1
        exact ⟨c', List.mem_cons_of_mem c hc', he⟩

theorem appendLineAt_props (ln : TextLineNode) (st : BuildState) (a : RAddr)
    (hok : addrOK st a) :
    stateLines (appendLineAt ln st a) = stateLines st + 1
    ∧ stateRecRegions (appendLineAt ln st a) = stateRecRegions st
    ∧ (appendLineAt ln st a).allTextRegions = st.allTextRegions
    ∧ (appendLineAt ln st a).orphanLineRegs = st.orphanLineRegs
    ∧ (appendLineAt ln st a).orphanLineCount = st.orphanLineCount
    ∧ (∀ b, addrOK st b → addrOK (appendLineAt ln st a) b) := by
  cases a with
  | topIdx i =>
    have hi : i < st.tops.length := hok
    obtain ⟨t, hget⟩ : ∃ t, st.tops.get? i = some t :=
      ⟨st.tops.get ⟨i, hi⟩, List.get?_eq_get hi⟩
    refine ⟨?_, ?_, rfl, rfl, rfl, ?_⟩
    · unfold appendLineAt stateLines
      simp only
      rw [regLinesSum_listModify_succ _ i st.tops t hget
        (by simp [topLines, List.length_append]; omega)]
      omega
    · unfold appendLineAt stateRecRegions
      simp only
      rw [regCountSum_listModify_eq _ i st.tops t hget (by simp [topRegCount])]
    · intro b hb
      cases b with
      | topIdx k =>
        have hb' : k < st.tops.length := hb
        show k < (listModify _ i st.tops).length
        rw [listModify_length]
        exact hb'
      | subIdx k l =>
        have hb' : ∃ u, st.tops.get? k = some u ∧ l < u.subs.length := hb
        obtain ⟨u, hu, hl⟩ := hb'
        show ∃ u', (listModify _ i st.tops).get? k = some u' ∧ l < u'.subs.length
        rw [listModify_get?]
        by_cases hik : i = k
        · rw [if_pos hik, hu]
          exact ⟨{ u with lines := u.lines ++ [ln] }, rfl, hl⟩
        · rw [if_neg hik]
          exact ⟨u, hu, hl⟩
      | orphIdx k => exact hb
  | subIdx i j =>
    have hok' : ∃ t, st.tops.get? i = some t ∧ j < t.subs.length := hok
    obtain ⟨t, hget, hj⟩ := hok'
    obtain ⟨s, hs⟩ : ∃ s, t.subs.get? j = some s :=
      ⟨t.subs.get ⟨j, hj⟩, List.get?_eq_get hj⟩
    have hinner := sum_map_listModify (fun s => s.lines.length)
      (fun s => { s with lines := s.lines ++ [ln] }) j t.subs s hs
    have htl : topLines { t with
        subs := listModify (fun s => { s with lines := s.lines ++ [ln] }) j t.subs }
        = topLines t + 1 := by
      unfold topLines
      dsimp only at hinner ⊢
      simp only [List.length_append, List.length_singleton] at hinner
      omega
    refine ⟨?_, ?_, rfl, rfl, rfl, ?_⟩
    · unfold appendLineAt stateLines
      simp only
      rw [regLinesSum_listModify_succ _ i st.tops t hget htl]
      omega
    · unfold appendLineAt stateRecRegions
      simp only
      rw [regCountSum_listModify_eq _ i st.tops t hget
        (by simp [topRegCount, listModify_length])]
    · intro b hb
      cases b with
      | topIdx k =>
        have hb' : k < st.tops.length := hb
        show k < (listModify _ i st.tops).length
        rw [listModify_length]
        exact hb'
      | subIdx k l =>
        have hb' : ∃ u, st.tops.get? k = some u ∧ l < u.subs.length := hb
        obtain ⟨u, hu, hl⟩ := hb'
        show ∃ u', (listModify _ i st.tops).get? k = some u' ∧ l < u'.subs.length
        rw [listModify_get?]
        by_cases hik : i = k
        · rw [if_pos hik, hu]
          refine ⟨{ u with
            subs := listModify (fun s => { s with lines := s.lines ++ [ln] }) j u.subs }, rfl, ?_⟩
          show l < (listModify _ j u.subs).length
          rw [listModify_length]
          exact hl
        · rw [if_neg hik]
          exact ⟨u, hu, hl⟩
      | orphIdx k => exact hb
  | orphIdx i =>
    have hi : i < st.orphanRegs.length := hok
    obtain ⟨t, hget⟩ : ∃ t, st.orphanRegs.get? i = some t :=
      ⟨st.orphanRegs.get ⟨i, hi⟩, List.get?_eq_get hi⟩
    refine ⟨?_, ?_, rfl, rfl, rfl, ?_⟩
    · unfold appendLineAt stateLines
      simp only
      rw [regLinesSum_listModify_succ _ i st.orphanRegs t hget
        (by simp [topLines, List.length_append]; omega)]
      omega
    · unfold appendLineAt stateRecRegions
      simp only
      rw [regCountSum_listModify_eq _ i st.orphanRegs t hget (by simp [topRegCount])]
    · intro b hb
      cases b with
      | topIdx k => exact hb
      | subIdx k l => exact hb
      | orphIdx k =>
        have hb' : k < st.orphanRegs.length := hb
        show k < (listModify _ i st.orphanRegs).length
        rw [listModify_length]
        exact hb'

theorem pass4Step_props (G : Geom) (st : BuildState) (l : LineRec) (hinv : stInv st) :
    stateLines (pass4Step G st l) = stateLines st + 1
    ∧ stateRecRegions (pass4Step G st l) = stateRecRegions st
    ∧ stInv (pass4Step G st l) := by
  cases h : assignLeaf G st.allTextRegions l.points with
  | some a =>
    have hmem : ∃ c ∈ st.allTextRegions, c.addr = a := by
      rcases assignLoop_some_mem G l.points (lineAreaOf G l.points) st.allTextRegions
        none none a h with h1 | h1
      · cases h1
      · exact h1
    obtain ⟨c, hc, hca⟩ := hmem
    have hok : addrOK st a := hca ▸ hinv c hc
    have hps : pass4Step G st l = appendLineAt ⟨l.id, l.points⟩ st a := by
      unfold pass4Step
      rw [h]
    have hap := appendLineAt_props ⟨l.id, l.points⟩ st a hok
    rw [hps]
    refine ⟨hap.1, hap.2.1, ?_⟩
    intro c' hc'
    rw [hap.2.2.1] at hc'
    exact hap.2.2.2.2.2 c'.addr (hinv c' hc')
  | none =>
    rw [pass4Step_none G st l h]
    refine ⟨?_, rfl, ?_⟩
    · unfold stateLines
      simp only
      rw [regLinesSum_append]
      have h1 : regLinesSum [orphanRegionFor st l] = 1 := rfl
      rw [h1]
      omega
    · intro c' hc'
      have h0 := hinv c' hc'
      cases ha : c'.addr with
      | topIdx k => rw [ha] at h0; exact h0
      | subIdx k l' => rw [ha] at h0; exact h0
      | orphIdx k => rw [ha] at h0; exact h0

theorem pass4_props (G : Geom) :
    ∀ (ls : List LineRec) (st : BuildState), stInv st →
      stateLines (pass4 G st ls) = stateLines st + ls.length
      ∧ stateRecRegions (pass4 G st ls) = stateRecRegions st
      ∧ stInv (pass4 G st ls) := by
  intro ls
  induction ls with
  | nil =>
    intro st h
    exact ⟨by simp [pass4], rfl, h⟩
  | cons l ls ih =>
    intro st h
    have hs := pass4Step_props G st l h
    have hi := ih (pass4Step G st l) hs.2.2
    have hstep : pass4 G st (l :: ls) = pass4 G (pass4Step G st l) ls := by
      simp [pass4, List.foldl_cons]
    rw [hstep]
    refine ⟨?_, ?_, hi.2.2⟩
    · rw [hi.1, hs.1]
      simp only [List.length_cons]
      omega
    · rw [hi.2.1, hs.2.1]

/-- Claim C3 (amended): for every input list of records whose class id maps to
a non-empty configuration with a recognized element type (`TextLine`,
`TextRegion`, or one of the five opaque region types, defaulting to
`TextLine` when the `element` key is absent), the built tree contains
exactly N corresponding nodes — opaque regions, record-derived `TextRegion`
nodes, and `TextLine` nodes — and every leaf and every nestable region ends
up owned by exactly one container.  Records whose configuration is empty are
dropped with a warning, and records with an unrecognized element type are
dropped silently, so the unrestricted claim fails (see the counterexample). -/
theorem claim3_no_data_loss (G : Geom) (m : Mapping) (recs : List ParsedRec)
    (h : ∀ r ∈ recs, recognizedRecord m r = true) :
    (classifyRecords m recs).opaques.length
      + stateRecRegions (buildFromClassified G (classifyRecords m recs))
      + stateLines (buildFromClassified G (classifyRecords m recs))
      = recs.length := by
  have hcount : classifiedNodeCount (classifyRecords m recs) = recs.length :=
    classify_count m recs h
  have h2inv := pass2_inv (classifyRecords m recs).parentTextRegions
  have h2len := pass2_tops_length (classifyRecords m recs).parentTextRegions
  have h3 := pass3_props G (classifyRecords m recs).parentTextRegions
    (classifyRecords m recs).childTextRegions
    (pass2 (classifyRecords m recs).parentTextRegions) h2inv h2len
  have h4 := pass4_props G (classifyRecords m recs).textLines
    (pass3 G (classifyRecords m recs).parentTextRegions
      (pass2 (classifyRecords m recs).parentTextRegions)
      (classifyRecords m recs).childTextRegions) h3.2.2.2.1
  unfold buildFromClassified
  rw [h4.2.1, h4.1, h3.2.1, h3.2.2.1, pass2_recRegions, pass2_lines]
  unfold classifiedNodeCount at hcount
  omega

/-- Counterexample to C3 as stated: a record whose class id IS present in the
mapping table but maps to the unrecognized element type `"Foo"` is dropped
silently — the tree built from the one-record input contains zero nodes. -/
theorem claim3_counterexample :
    (List.find? (fun kv => kv.1 == toString (0 : Int))
        [("0", [("element", "Foo")])]).isSome = true
    ∧ (classifyRecords [("0", [("element", "Foo")])]
          [⟨0, 0, [(0, 0), (10, 0), (10, 10), (0, 10)]⟩]).opaques.length
        + stateRecRegions (buildFromClassified boxGeom
            (classifyRecords [("0", [("element", "Foo")])]
              [⟨0, 0, [(0, 0), (10, 0), (10, 10), (0, 10)]⟩]))
        + stateLines (buildFromClassified boxGeom
            (classifyRecords [("0", [("element", "Foo")])]
              [⟨0, 0, [(0, 0), (10, 0), (10, 10), (0, 10)]⟩]))
      = 0
    ∧ ([⟨0, 0, [(0, 0), (10, 0), (10, 10), (0, 10)]⟩] : List ParsedRec).length = 1 := by
  refine ⟨rfl, ?_, rfl⟩
  with_unfolding_all decide

/-- A small mixed input for the C3 witness: one top region, one nested
region, one text line, one image region. -/
def c3Mapping : Mapping :=
  [("0", [("element", "TextLine"), ("parent", "TextRegion")]),
   ("1", [("element", "TextRegion")]),
   ("2", [("element", "TextRegion"), ("parent", "TextRegion")]),
   ("3", [("element", "ImageRegion")])]

def c3Records : List ParsedRec :=
  [⟨0, 1, [(0, 0), (100, 0), (100, 100), (0, 100)]⟩,
   ⟨1, 2, [(10, 10), (40, 10), (40, 40), (10, 40)]⟩,
   ⟨2, 0, [(12, 12), (20, 12), (20, 16), (12, 16)]⟩,
   ⟨3, 3, [(200, 200), (250, 200), (250, 250), (200, 250)]⟩]

/-- Witness for C3 on a concrete four-record input: exactly four nodes. -/
theorem claim3_witness :
    (classifyRecords c3Mapping c3Records).opaques.length
      + stateRecRegions (buildFromClassified boxGeom (classifyRecords c3Mapping c3Records))
      + stateLines (buildFromClassified boxGeom (classifyRecords c3Mapping c3Records))
      = 4 :=
  (claim3_no_data_loss boxGeom c3Mapping c3Records (by with_unfolding_all decide)).trans rfl
